import Mathlib

/-!
# golang-lib: HTTP helpers, middleware chain, timeout guard and validator

A shallow embedding of `httputil/httputil.go`, `logger/logger.go` and
`validator/validator.go`.

* `Go`        : the parts of the Go standard library the code calls
                (`net/http` headers, response writer and `MaxBytesReader`,
                `context` values, `encoding/json` output for the values that
                occur and its scanner and decoder, `strings`, `unicode`,
                anchored `regexp` patterns).
* `logger`    : `Logger.With`, `Logger.WithContext`.
* `httputil`  : `WriteJSON`, `WriteSuccess`, `WriteError`, `ReadJSON`, `Recover`,
                `RequestID`, `CORS`, and the goroutine race of `Timeout`
                as a transition system over explicit schedules.
* `validator` : the validator and its checks other than `Pattern`.
-/

set_option autoImplicit false

namespace Go

/-! ## Values behind `interface{}` and their JSON encoding -/

/-- A Go value held in an `interface{}`, as far as the code can observe it:
whether it is the nil interface and what `encoding/json` makes of it. -/
inductive Any where
  /-- the nil interface value -/
  | nil
  /-- a Go `bool` -/
  | bool (b : Bool)
  /-- a Go integer -/
  | int (n : Int)
  /-- a Go `string` -/
  | str (s : String)
  /-- any other encodable value (struct, map, slice, typed nil pointer), given by its JSON text -/
  | json (text : String)
  /-- a value of a kind `encoding/json` rejects (channel, function, complex number) -/
  | unsupported (typ : String)
  deriving DecidableEq

/-- The character with the given code point among the sixteen hexadecimal digits. -/
def hexDigit (n : Nat) : Char :=
  "0123456789abcdef".toList.getD n '0'

/-- The six characters of a JSON unicode escape for a code point below 0x10000. -/
def unicodeEscape (n : Nat) : List Char :=
  [Char.ofNat 92, 'u', hexDigit (n / 4096 % 16), hexDigit (n / 256 % 16),
    hexDigit (n / 16 % 16), hexDigit (n % 16)]

/-- How `encoding/json` writes one character of a string with HTML escaping on
(the default of `json.Encoder`): short escapes for quote, backslash and the
usual control characters (backspace and form feed among them, as Go 1.22 and
later do), unicode escapes for the other control characters, for the three
HTML characters and for U+2028 / U+2029. -/
def escapeChar (c : Char) : List Char :=
  if c = Char.ofNat 34 then [Char.ofNat 92, Char.ofNat 34]
  else if c = Char.ofNat 92 then [Char.ofNat 92, Char.ofNat 92]
  else if c = Char.ofNat 8 then [Char.ofNat 92, 'b']
  else if c = Char.ofNat 12 then [Char.ofNat 92, 'f']
  else if c = Char.ofNat 10 then [Char.ofNat 92, 'n']
  else if c = Char.ofNat 13 then [Char.ofNat 92, 'r']
  else if c = Char.ofNat 9 then [Char.ofNat 92, 't']
  else if c.toNat < 32 ∨ c = '<' ∨ c = '>' ∨ c = '&' ∨ c.toNat = 8232 ∨ c.toNat = 8233 then
    unicodeEscape c.toNat
  else [c]

/-- The JSON string literal for a Go string. -/
def quote (s : String) : String :=
  String.mk (Char.ofNat 34 :: (s.toList.flatMap escapeChar ++ [Char.ofNat 34]))

/-- What `json.Marshal` returns for a value: the JSON text, or the error text. -/
def Any.marshal : Any → Except String String
  | .nil => .ok "null"
  | .bool b => .ok (if b then "true" else "false")
  | .int n => .ok (toString n)
  | .str s => .ok (quote s)
  | .json text => .ok text
  | .unsupported typ => .error ("json: unsupported type: " ++ typ)

/-- The two things the code needs of a value it handles as `interface{}`:
the comparison `data == nil` and the result of `json.Marshal`. -/
class JSONValue (α : Type) where
  /-- the comparison with the nil interface -/
  isNil : α → Bool
  /-- the result of `json.Marshal` -/
  marshal : α → Except String String

instance : JSONValue Any where
  isNil v := decide (v = Any.nil)
  marshal v := v.marshal

/-! ## `net/http` headers -/

/-- The bytes `net/textproto` accepts in a header field name. -/
def validHeaderFieldByte (c : Char) : Bool :=
  c.isAlphanum || "!#$%&*+-.^_|~".toList.contains c || c == Char.ofNat 39 || c == Char.ofNat 96

/-- The loop of `textproto.CanonicalMIMEHeaderKey`: upper case at the start and
after a hyphen, lower case elsewhere. -/
def canonicalLoop (upper : Bool) : List Char → List Char
  | [] => []
  | c :: cs => (if upper then c.toUpper else c.toLower) :: canonicalLoop (c == '-') cs

/-- The function `textproto.CanonicalMIMEHeaderKey`: a key with a byte that is
not valid in a field name is returned unchanged. -/
def canonicalMIMEHeaderKey (s : String) : String :=
  if s.toList.all validHeaderFieldByte then String.mk (canonicalLoop true s.toList) else s

/-- The type `http.Header`, a `map[string][]string`, as an association list with
one entry per key. -/
structure Header where
  entries : List (String × List String)
  deriving DecidableEq

/-- The method `Header.Get`: the first value stored under the canonical form of the key,
or the empty string. -/
def Header.Get (h : Header) (key : String) : String :=
  match h.entries.lookup (canonicalMIMEHeaderKey key) with
  | some (v :: _) => v
  | _ => ""

/-- The method `Header.Set`: replaces whatever is stored under the canonical form of the
key by the single value. -/
def Header.Set (h : Header) (key value : String) : Header :=
  ⟨(canonicalMIMEHeaderKey key, [value]) ::
    h.entries.filter (fun e => e.1 != canonicalMIMEHeaderKey key)⟩

/-- Whether the map has an entry for the canonical form of the key. -/
def Header.Has (h : Header) (key : String) : Bool :=
  (h.entries.lookup (canonicalMIMEHeaderKey key)).isSome

/-! ## `http.ResponseWriter` -/

/-- The state of an `http.ResponseWriter`: the `Header()` map, the status code
sent by the first `WriteHeader` (none while no header has been sent) and the
body bytes written so far. -/
structure ResponseWriter where
  header : Header
  code : Option Int
  body : String
  deriving DecidableEq

/-- A writer nothing has been written to. -/
def ResponseWriter.fresh : ResponseWriter := ⟨⟨[]⟩, none, ""⟩

/-- The statement `w.Header().Set(key, value)`. -/
def ResponseWriter.setHeader (w : ResponseWriter) (key value : String) : ResponseWriter :=
  { w with header := w.header.Set key value }

/-- The check `checkWriteHeaderCode` of `net/http`: a status code has three digits. -/
def checkWriteHeaderCode (code : Int) : Bool :=
  decide (100 ≤ code) && decide (code ≤ 999)

/-- Whether the server of `net/http` sends a three-digit code as an informational
response: the codes 100 to 199 other than 101. -/
def informational (code : Int) : Bool :=
  decide (100 ≤ code) && decide (code ≤ 199) && decide (code ≠ 101)

/-- The function `bodyAllowedForStatus` of `net/http`: no body goes with the
statuses 100 to 199, 204 and 304. -/
def bodyAllowedForStatus (status : Int) : Bool :=
  !(decide (100 ≤ status) && decide (status ≤ 199)) && decide (status ≠ 204) &&
    decide (status ≠ 304)

/-- The text of the error `http.ErrBodyNotAllowed`. -/
def ErrBodyNotAllowed : String :=
  "http: request method or response status code does not allow body"

/-- The method `WriteHeader` of the server's response writer: a call after the
header has been sent is ignored, a code that fails `checkWriteHeaderCode`
panics (the error case), an informational code is sent at once as a
response of its own and leaves the header unsent, and any other code
becomes the status of the response. -/
def ResponseWriter.WriteHeader (w : ResponseWriter) (code : Int) : Except Any ResponseWriter :=
  if w.code.isSome then .ok w
  else if checkWriteHeaderCode code then
    if informational code then .ok w else .ok { w with code := some code }
  else .error (.str ("invalid WriteHeader code " ++ toString code))

/-- The method `Write` of the server's response writer: it sends the header with
status 200 when none has been sent; then no bytes are no write, bytes for a
status that allows no body are refused with `http.ErrBodyNotAllowed`, and
other bytes are appended to the body. The result is the writer and the
returned error. The body is what the handlers have written: that the server
sends none of it in answer to a `HEAD` request, and the error for bytes beyond
a declared `Content-Length`, are left out. -/
def ResponseWriter.Write (w : ResponseWriter) (data : String) :
    ResponseWriter × Option String :=
  let w := { w with code := some (w.code.getD 200) }
  if data = "" then (w, none)
  else if bodyAllowedForStatus (w.code.getD 200) then
    ({ w with body := w.body ++ data }, none)
  else (w, some ErrBodyNotAllowed)

/-- The call `json.NewEncoder(w).Encode(v)`: the value is marshalled first; on an error
nothing is written and the error text is returned, otherwise the JSON text
followed by a newline is written in one `Write`, whose error is returned. -/
def Encode {α : Type} [JSONValue α] (w : ResponseWriter) (v : α) : ResponseWriter × Option String :=
  match JSONValue.marshal v with
  | .error e => (w, some e)
  | .ok text => w.Write (text ++ "\n")

/-! ## `context.Context` values -/

/-- A context key: an interface value, equal to another only when both the
dynamic type and the value agree. -/
structure CtxKey where
  typ : String
  val : String
  deriving DecidableEq

/-- The values of a `context.Context`, innermost `WithValue` first. -/
structure Context where
  values : List (CtxKey × Any)
  deriving DecidableEq

/-- The function `context.WithValue(ctx, key, val)`. -/
def Context.WithValue (ctx : Context) (key : CtxKey) (val : Any) : Context :=
  ⟨(key, val) :: ctx.values⟩

/-- The method `ctx.Value(key)`: the value of the innermost matching `WithValue`, or nil. -/
def Context.Value (ctx : Context) (key : CtxKey) : Any :=
  (ctx.values.lookup key).getD Any.nil

/-- The parts of an `http.Request` the middleware reads. -/
structure Request where
  Method : String
  Header : Header
  ctx : Context
  deriving DecidableEq

/-- The method `r.WithContext(ctx)`. -/
def Request.WithContext (r : Request) (ctx : Context) : Request :=
  { r with ctx := ctx }

/-- How a call of `ServeHTTP` ends: the writer as the call leaves it, and the
panic value when the call panics instead of returning. -/
structure Outcome where
  w : ResponseWriter
  panic : Option Any
  deriving DecidableEq

/-- An `http.Handler`: what `ServeHTTP(w, r)` does to the writer. -/
abbrev Handler := ResponseWriter → Request → Outcome

/-- The value `recover()` returns in a deferred function: nil when the function
is not panicking, otherwise the panic value, which is never nil (a
`panic(nil)` is recovered as a `*runtime.PanicNilError`, Go 1.21 and later). -/
def recover (p : Option Any) : Any :=
  match p with
  | none => Any.nil
  | some Any.nil => Any.json "PanicNilError"
  | some v => v

end Go

namespace logger

open Go

/-- The wrapper around `*zap.Logger`, by the fields the logger attaches to
every entry. -/
structure Logger where
  fields : List (String × String)
  deriving DecidableEq

/-- The method `Logger.With`: a child logger with additional fields. -/
def Logger.With (l : Logger) (fields : List (String × String)) : Logger :=
  ⟨l.fields ++ fields⟩

/-- The constant `requestIDKey`, of the package's own type `contextKey`. -/
def requestIDKey : CtxKey := ⟨"logger.contextKey", "request_id"⟩

/-- The method `Logger.WithContext`: adds the request id when the context holds a string
under `requestIDKey`. -/
def Logger.WithContext (l : Logger) (ctx : Context) : Logger :=
  match ctx.Value requestIDKey with
  | Any.str reqID => l.With [("request_id", reqID)]
  | _ => l

end logger

namespace httputil

open Go

/-- The struct `ErrorInfo`. -/
structure ErrorInfo where
  Code : String
  Message : String
  deriving DecidableEq

/-- The struct `Response`; `Error` is a pointer, nil being `none`. -/
structure Response where
  Success : Bool
  Data : Any
  Error : Option ErrorInfo
  deriving DecidableEq

/-- JSON text of an `ErrorInfo`: both members, always. -/
def ErrorInfo.marshal (e : ErrorInfo) : String :=
  "\x7b\"code\":" ++ quote e.Code ++ ",\"message\":" ++ quote e.Message ++ "\x7d"

/-- JSON text of a `Response`, following the struct tags: `success` always,
`data` unless the interface is nil (`omitempty`), `error` unless the pointer
is nil (`omitempty`); the error of marshalling `Data` is the error of the
whole. -/
def Response.marshal (r : Response) : Except String String :=
  let success := "\"success\":" ++ (if r.Success then "true" else "false")
  let error := match r.Error with
    | none => ""
    | some e => ",\"error\":" ++ e.marshal
  if r.Data = Any.nil then .ok ("\x7b" ++ success ++ error ++ "\x7d")
  else match r.Data.marshal with
    | .error e => .error e
    | .ok d => .ok ("\x7b" ++ success ++ ",\"data\":" ++ d ++ error ++ "\x7d")

instance : JSONValue Response where
  isNil _ := false
  marshal r := r.marshal

/-- Result of the writing helpers: the writer afterwards, the returned `error`
(nil being `none`), and the panic value when `WriteHeader` panicked. -/
structure WriteResult where
  w : ResponseWriter
  err : Option String
  panic : Option Any
  deriving DecidableEq

/-- The function `WriteJSON`, lines 26-39. -/
def WriteJSON {α : Type} [JSONValue α] (w : ResponseWriter) (status : Int) (data : α) :
    WriteResult :=
  let w := w.setHeader "Content-Type" "application/json"
  match w.WriteHeader status with
  | .error v => ⟨w, none, some v⟩
  | .ok w =>
    if JSONValue.isNil data then ⟨w, none, none⟩
    else match Encode w data with
      | (w, some err) => ⟨w, some ("failed to encode JSON response: " ++ err), none⟩
      | (w, none) => ⟨w, none, none⟩

/-- The function `WriteError`, lines 50-58. -/
def WriteError (w : ResponseWriter) (status : Int) (code message : String) : WriteResult :=
  WriteJSON w status
    ({ Success := false, Data := Any.nil, Error := some ⟨code, message⟩ } : Response)

/-- The middleware `Recover`, lines 97-106: the deferred function runs when
`next.ServeHTTP` returns or panics; when `recover()` is not nil it writes the
fixed error response, whose returned error is dropped, and the panic ends
there (a panic of `WriteError` itself would go on). -/
def Recover (next : Handler) : Handler := fun w r =>
  let o := next w r
  if recover o.panic ≠ Any.nil then
    let e := WriteError o.w 500 "internal_error" "Internal server error"
    ⟨e.w, e.panic⟩
  else ⟨o.w, none⟩

/-- The middleware `RequestID`, lines 109-121; `unixNano` is the reading of
`time.Now().UnixNano()`, and the context key is the plain string
`"request_id"`. -/
def RequestID (unixNano : Int) (next : Handler) : Handler := fun w r =>
  let requestID := r.Header.Get "X-Request-ID"
  let requestID := if requestID = "" then toString unixNano else requestID
  let ctx := r.ctx.WithValue ⟨"string", "request_id"⟩ (Any.str requestID)
  let w := w.setHeader "X-Request-ID" requestID
  next w (r.WithContext ctx)

/-- The loop of lines 153-160 in `CORS`: the flag `allowed` and the writer. -/
def corsLoop (origin : String) (w : ResponseWriter) : List String → Bool × ResponseWriter
  | [] => (false, w)
  | o :: rest =>
    if o = origin ∨ o = "*" then (true, w.setHeader "Access-Control-Allow-Origin" origin)
    else corsLoop origin w rest

/-- The middleware `CORS`, lines 147-178. -/
def CORS (allowedOrigins : List String) (next : Handler) : Handler := fun w r =>
  let origin := r.Header.Get "Origin"
  let (allowed, w) := corsLoop origin w allowedOrigins
  let w := if !allowed && decide (allowedOrigins.length > 0)
    then w.setHeader "Access-Control-Allow-Origin" (allowedOrigins.getD 0 "")
    else w
  let w := w.setHeader "Access-Control-Allow-Methods" "GET, POST, PUT, DELETE, OPTIONS"
  let w := w.setHeader "Access-Control-Allow-Headers" "Content-Type, Authorization"
  let w := w.setHeader "Vary" "Origin"
  if r.Method = "OPTIONS" then
    match w.WriteHeader 200 with
    | .ok w => ⟨w, none⟩
    | .error v => ⟨w, some v⟩
  else next w r

/-! ## `Timeout`: the race between the handler goroutine and the deadline

`Timeout(duration)(next)` starts `next.ServeHTTP` in a goroutine of its own that
shares the response writer with the guard, and waits in a `select` for
the goroutine to send on `done` or for `ctx.Done()` to be closed. The two
goroutines are modelled as a transition system; a schedule (a list of
events) picks one interleaving. -/

/-- One call on the shared response writer. -/
inductive WCall where
  /-- the statement `w.Header().Set(key, value)` -/
  | setHeader (key value : String)
  /-- the statement `w.WriteHeader(code)` -/
  | writeHeader (code : Int)
  /-- the statement `w.Write(data)` -/
  | write (data : String)
  deriving DecidableEq

/-- The effect of one call on the writer; the error case is a panic. -/
def WCall.exec (c : WCall) (w : ResponseWriter) : Except Any ResponseWriter :=
  match c with
  | .setHeader key value => .ok (w.setHeader key value)
  | .writeHeader code => w.WriteHeader code
  | .write data => .ok (w.Write data).1

/-- The calls one after the other on a writer, up to the first panic. -/
def replay : List WCall → ResponseWriter → Except Any ResponseWriter
  | [], w => .ok w
  | c :: cs, w =>
    match c.exec w with
    | .ok w1 => replay cs w1
    | .error v => .error v

/-- The calls `WriteJSON` makes on the writer, in program order. -/
def writeJSONCalls {α : Type} [JSONValue α] (status : Int) (data : α) : List WCall :=
  [WCall.setHeader "Content-Type" "application/json", WCall.writeHeader status] ++
    (if JSONValue.isNil data then []
     else match JSONValue.marshal data with
      | .ok text => [WCall.write (text ++ "\n")]
      | .error _ => [])

/-- The calls `WriteError` makes on the writer, in program order. -/
def writeErrorCalls (status : Int) (code message : String) : List WCall :=
  writeJSONCalls status
    ({ Success := false, Data := Any.nil, Error := some ⟨code, message⟩ } : Response)

/-- The calls of the timeout branch, line 140. -/
def timeoutCalls : List WCall :=
  writeErrorCalls 408 "timeout" "Request timeout"

/-- Which goroutine made a call on the shared writer. -/
inductive Who where
  /-- the goroutine serving the request, which runs the `select` -/
  | guard
  /-- the goroutine started at line 131, which runs `next.ServeHTTP` -/
  | handler
  deriving DecidableEq

/-- The next thing the wrapped handler does. -/
inductive HStep (σ : Type) where
  /-- a call on the response writer -/
  | call (c : WCall) (next : σ)
  /-- a step that leaves the writer alone -/
  | internal (next : σ)
  /-- the call of `ServeHTTP` returns -/
  | ret
  /-- the call of `ServeHTTP` panics -/
  | panic (v : Any)

/-- The wrapped handler serving one request, as a machine over its own state;
each step may look at whether `ctx.Done()` is closed. -/
structure HandlerProc (σ : Type) where
  init : σ
  step : σ → Bool → HStep σ

/-- The handler that makes the given calls, whatever the context says, and returns. -/
def HandlerProc.ofCalls (cs : List WCall) : HandlerProc (List WCall) where
  init := cs
  step
    | [], _ => HStep.ret
    | c :: rest, _ => HStep.call c rest

/-- Where the goroutine of line 131 is. -/
inductive HPc (σ : Type) where
  /-- inside `next.ServeHTTP`, line 132 -/
  | running (s : σ)
  /-- blocked in `done <- true`, line 133 -/
  | sending
  /-- the send was received and the goroutine is gone -/
  | exited
  deriving DecidableEq

/-- The outcome of the race. -/
inductive RaceResult where
  | Completed
  | DeadlineExceeded
  deriving DecidableEq

/-- Where the guard is. -/
inductive GPc where
  /-- waiting in the `select`, line 136 -/
  | selecting
  /-- in the branch of line 139, with these calls of `WriteError` still to make -/
  | writing (rest : List WCall)
  /-- returned, through the branch named -/
  | returned (r : RaceResult)
  /-- a call of the guard on the writer panicked -/
  | panicked (v : Any)
  deriving DecidableEq

/-- State of one guarded request. -/
structure TState (σ : Type) where
  /-- the shared response writer -/
  w : ResponseWriter
  /-- the calls made on it so far, oldest first, each with its goroutine -/
  log : List (Who × WCall)
  h : HPc σ
  g : GPc
  /-- the clock, in nanoseconds -/
  now : Int
  /-- the deadline of `ctx`, set by `context.WithTimeout` at line 127 -/
  deadline : Int
  /-- the context of the inbound request is done -/
  parentDone : Bool
  /-- the deferred `cancel()` of line 128 has run -/
  cancelled : Bool
  /-- an unrecovered panic in the handler goroutine has ended the process -/
  crashed : Bool
  deriving DecidableEq

/-- Whether `ctx.Done()` is closed: the parent is done, `cancel` was called or
the deadline has passed. -/
def TState.ctxDone {σ : Type} (s : TState σ) : Bool :=
  s.parentDone || s.cancelled || decide (s.deadline ≤ s.now)

/-- What can happen next. -/
inductive Event where
  /-- a nanosecond passes -/
  | tick
  /-- the context of the inbound request is cancelled -/
  | parentCancel
  /-- the handler goroutine takes its next step -/
  | handler
  /-- the `select` takes `case <-done`, line 137 -/
  | recvDone
  /-- the `select` takes `case <-ctx.Done()`, line 139 -/
  | recvCtxDone
  /-- the guard makes its next call of `WriteError`, or returns after the last -/
  | guardCall
  deriving DecidableEq

/-- The state in which the guard reaches its `select`: lines 127-134 done, the
goroutine started. -/
def Timeout.init {σ : Type} (duration : Int) (p : HandlerProc σ) (w : ResponseWriter)
    (now : Int) (parentDone : Bool) : TState σ where
  w := w
  log := []
  h := HPc.running p.init
  g := GPc.selecting
  now := now
  deadline := now + duration
  parentDone := parentDone
  cancelled := false
  crashed := false

/-- One event; `none` when the event cannot happen in the state. -/
def Timeout.step {σ : Type} (p : HandlerProc σ) (s : TState σ) (e : Event) : Option (TState σ) :=
  if s.crashed then none
  else match e with
  | .tick => some { s with now := s.now + 1 }
  | .parentCancel => some { s with parentDone := true }
  | .handler =>
    match s.h with
    | .running st =>
      match p.step st s.ctxDone with
      | .call c st1 =>
        match c.exec s.w with
        | .ok w1 => some { s with w := w1, log := s.log ++ [(Who.handler, c)], h := HPc.running st1 }
        | .error _ => some { s with crashed := true }
      | .internal st1 => some { s with h := HPc.running st1 }
      | .ret => some { s with h := HPc.sending }
      | .panic _ => some { s with crashed := true }
    | _ => none
  | .recvDone =>
    match s.g, s.h with
    | .selecting, .sending =>
      some { s with g := GPc.returned RaceResult.Completed, h := HPc.exited, cancelled := true }
    | _, _ => none
  | .recvCtxDone =>
    match s.g with
    | .selecting => if s.ctxDone then some { s with g := GPc.writing timeoutCalls } else none
    | _ => none
  | .guardCall =>
    match s.g with
    | .writing (c :: rest) =>
      match c.exec s.w with
      | .ok w1 => some { s with w := w1, log := s.log ++ [(Who.guard, c)], g := GPc.writing rest }
      | .error v => some { s with g := GPc.panicked v, cancelled := true }
    | .writing [] =>
      some { s with g := GPc.returned RaceResult.DeadlineExceeded, cancelled := true }
    | _ => none

/-- A schedule from a state; `none` as soon as an event cannot happen. -/
def Timeout.run {σ : Type} (p : HandlerProc σ) (s : TState σ) : List Event → Option (TState σ)
  | [] => some s
  | e :: es =>
    match Timeout.step p s e with
    | some s1 => Timeout.run p s1 es
    | none => none

/-- The calls one goroutine has made, in order. -/
def callsBy (who : Who) (log : List (Who × WCall)) : List WCall :=
  (log.filter (fun e => decide (e.1 = who))).map (fun e => e.2)

end httputil

namespace httputil

open Go

/-- What the guard has done, from where it is: nothing before the `select` is
decided and in the completion branch, the calls of `WriteError` up to the
pending ones in the timeout branch, which is entered only with the parent
context done or the deadline `dl` reached. -/
def Timeout.guardInv {σ : Type} (dl : Int) (s : TState σ) : Prop :=
  match s.g with
  | .selecting => callsBy Who.guard s.log = [] ∧ s.cancelled = false
  | .writing rest =>
    callsBy Who.guard s.log ++ rest = timeoutCalls ∧ (s.parentDone = true ∨ dl ≤ s.now)
  | .returned .Completed => callsBy Who.guard s.log = [] ∧ s.h = HPc.exited
  | .returned .DeadlineExceeded =>
    callsBy Who.guard s.log = timeoutCalls ∧ (s.parentDone = true ∨ dl ≤ s.now)
  | .panicked _ => False

/-- What every state reached from `Timeout.init` satisfies, for the initial
writer `w0` and the deadline `dl`: the writer is the initial one after the
logged calls, the deadline stays, and the guard's calls follow from where
the guard is. -/
def Timeout.Inv {σ : Type} (w0 : ResponseWriter) (dl : Int) (s : TState σ) : Prop :=
  replay (s.log.map (fun e => e.2)) w0 = .ok s.w ∧ s.deadline = dl ∧ Timeout.guardInv dl s

/-- The wrapped handler of scenario A: it calls `WriteSuccess(w, "ok")` and returns. -/
def okHandler : HandlerProc (List WCall) :=
  HandlerProc.ofCalls
    (writeJSONCalls 200 ({ Success := true, Data := Any.str "ok", Error := none } : Response))

/-! ## Inputs for the concrete checks -/

/-- A request with the correlation header `X-Request-ID: abc` and an empty context. -/
def requestWithID : Request :=
  ⟨"GET", ⟨[("X-Request-Id", ["abc"])]⟩, ⟨[]⟩⟩

/-- A request with `Origin: https://a.test`. -/
def requestFromA : Request :=
  ⟨"GET", ⟨[("Origin", ["https://a.test"])]⟩, ⟨[]⟩⟩

/-- A request with `Origin: https://b.test`. -/
def requestFromB : Request :=
  ⟨"GET", ⟨[("Origin", ["https://b.test"])]⟩, ⟨[]⟩⟩

/-- A handler that returns at once and leaves the writer alone. -/
def idleHandler : Handler := fun w _ => ⟨w, none⟩

end httputil

namespace Go

/-! ## `strings`, `unicode` and `regexp` -/

/-- The function `strings.Join(elems, sep)`. -/
def Join : List String → String → String
  | [], _ => ""
  | [a], _ => a
  | a :: b :: rest, sep => a ++ sep ++ Join (b :: rest) sep

/-- The function `unicode.IsSpace`: the Latin-1 white space characters and the
others with the Unicode property `White_Space`. -/
def unicodeIsSpace (c : Char) : Bool :=
  let n := c.toNat
  (9 ≤ n && n ≤ 13) || n == 32 || n == 133 || n == 160 || n == 5760 ||
    (8192 ≤ n && n ≤ 8202) || n == 8232 || n == 8233 || n == 8239 || n == 8287 || n == 12288

/-- The function `strings.TrimSpace`: the string without its leading and trailing
white space. -/
def TrimSpace (s : String) : String :=
  String.mk ((s.toList.dropWhile unicodeIsSpace).reverse.dropWhile unicodeIsSpace).reverse

/-- The built-in `len` on a string: the number of bytes of its UTF-8 encoding. -/
def len (s : String) : Int := (s.utf8ByteSize : Nat)

/-- A regular expression, as far as the patterns of the code need: character
classes, concatenation, alternation and repetition. -/
inductive Regex where
  /-- matches no text -/
  | empty
  /-- matches the empty text -/
  | eps
  /-- one character of a class -/
  | cls (p : Char → Bool)
  /-- one expression after the other -/
  | cat (a b : Regex)
  /-- one expression or the other -/
  | alt (a b : Regex)
  /-- the operator `*` -/
  | star (a : Regex)

/-- The operator `+`: one or more. -/
def Regex.plus (a : Regex) : Regex := Regex.cat a (Regex.star a)

/-- The operator `{2,}`: two or more. -/
def Regex.atLeastTwo (a : Regex) : Regex := Regex.cat a (Regex.cat a (Regex.star a))

/-- A single literal character. -/
def Regex.char (c : Char) : Regex := Regex.cls (fun d => d == c)

/-- Whether the expression matches the empty text. -/
def Regex.nullable : Regex → Bool
  | .empty => false
  | .eps => true
  | .cls _ => false
  | .cat a b => a.nullable && b.nullable
  | .alt a b => a.nullable || b.nullable
  | .star _ => true

/-- The expression for what may follow the character `c`. -/
def Regex.deriv : Regex → Char → Regex
  | .empty, _ => .empty
  | .eps, _ => .empty
  | .cls p, c => if p c then .eps else .empty
  | .cat a b, c =>
    if a.nullable then .alt (.cat (a.deriv c) b) (b.deriv c) else .cat (a.deriv c) b
  | .alt a b, c => .alt (a.deriv c) (b.deriv c)
  | .star a, c => .cat (a.deriv c) (.star a)

/-- Whether the expression matches the whole list of characters. -/
def Regex.matchList (r : Regex) : List Char → Bool
  | [] => r.nullable
  | c :: cs => (r.deriv c).matchList cs

/-- The method `MatchString` of a pattern anchored by `^` and `$`: the pattern
matches the whole text (`$` without flags is the end of the text only). -/
def Regex.MatchString (r : Regex) (s : String) : Bool :=
  r.matchList s.toList

/-- The texts an expression matches. -/
inductive Regex.Matches : Regex → List Char → Prop where
  | eps : Regex.Matches Regex.eps []
  | cls (p : Char → Bool) (c : Char) (h : p c = true) : Regex.Matches (Regex.cls p) [c]
  | cat (a b : Regex) (x y : List Char) (ha : Regex.Matches a x) (hb : Regex.Matches b y) :
    Regex.Matches (Regex.cat a b) (x ++ y)
  | altLeft (a b : Regex) (x : List Char) (ha : Regex.Matches a x) :
    Regex.Matches (Regex.alt a b) x
  | altRight (a b : Regex) (x : List Char) (hb : Regex.Matches b x) :
    Regex.Matches (Regex.alt a b) x
  | starNil (a : Regex) : Regex.Matches (Regex.star a) []
  | starCons (a : Regex) (x y : List Char) (ha : Regex.Matches a x)
    (hs : Regex.Matches (Regex.star a) y) : Regex.Matches (Regex.star a) (x ++ y)

end Go

namespace validator

open Go

/-- The struct `ValidationError`. -/
structure ValidationError where
  Field : String
  Message : String
  deriving DecidableEq

/-- The method `ValidationError.Error`, lines 16-18. -/
def ValidationError.Error (e : ValidationError) : String :=
  "validation failed for field '" ++ e.Field ++ "': " ++ e.Message

/-- The struct `Validator`; its methods change it in place, here they return the
validator afterwards. -/
structure Validator where
  errors : List ValidationError
  deriving DecidableEq

/-- The function `New`, lines 26-30. -/
def New : Validator := ⟨[]⟩

/-- The method `AddError`, lines 33-38. -/
def Validator.AddError (v : Validator) (field message : String) : Validator :=
  ⟨v.errors ++ [⟨field, message⟩]⟩

/-- The method `IsValid`, lines 41-43. -/
def Validator.IsValid (v : Validator) : Bool :=
  v.errors.length == 0

/-- The method `Errors`, lines 46-48. -/
def Validator.Errors (v : Validator) : List ValidationError :=
  v.errors

/-- The method `ErrorMessages`, lines 51-60. -/
def Validator.ErrorMessages (v : Validator) : String :=
  if v.IsValid then ""
  else Join (v.errors.map (fun err => err.Error)) "; "

/-- The method `Required`, lines 63-67. -/
def Validator.Required (v : Validator) (field value : String) : Validator :=
  if TrimSpace value = "" then v.AddError field "is required" else v

/-- The method `MinLength`, lines 70-74. -/
def Validator.MinLength (v : Validator) (field value : String) (min : Int) : Validator :=
  if len value < min then
    v.AddError field ("must be at least " ++ toString min ++ " characters")
  else v

/-- The method `MaxLength`, lines 77-81. -/
def Validator.MaxLength (v : Validator) (field value : String) (max : Int) : Validator :=
  if len value > max then
    v.AddError field ("must not exceed " ++ toString max ++ " characters")
  else v

/-- The class `[a-zA-Z0-9._%+\-]` of the pattern in `Email`. -/
def emailLocalChar (c : Char) : Bool :=
  c.isAlphanum || c == '.' || c == '_' || c == '%' || c == '+' || c == '-'

/-- The class `[a-zA-Z0-9.\-]` of the pattern in `Email`. -/
def emailDomainChar (c : Char) : Bool :=
  c.isAlphanum || c == '.' || c == '-'

/-- The pattern of line 85, between its anchors:
`[a-zA-Z0-9._%+\-]+@[a-zA-Z0-9.\-]+\.[a-zA-Z]{2,}`. -/
def emailRegex : Regex :=
  Regex.cat (Regex.plus (Regex.cls emailLocalChar))
    (Regex.cat (Regex.char '@')
      (Regex.cat (Regex.plus (Regex.cls emailDomainChar))
        (Regex.cat (Regex.char '.') (Regex.atLeastTwo (Regex.cls Char.isAlpha)))))

/-- The method `Email`, lines 84-89. -/
def Validator.Email (v : Validator) (field value : String) : Validator :=
  if !emailRegex.MatchString value then v.AddError field "must be a valid email address"
  else v

/-- The method `Range`, lines 92-96. -/
def Validator.Range (v : Validator) (field : String) (value min max : Int) : Validator :=
  if value < min ∨ value > max then
    v.AddError field ("must be between " ++ toString min ++ " and " ++ toString max)
  else v

/-- The loop of lines 112-116 in `OneOf`: whether the function returns from inside it. -/
def oneOfLoop (value : String) : List String → Bool
  | [] => false
  | a :: rest => if value = a then true else oneOfLoop value rest

/-- The method `OneOf`, lines 111-118. -/
def Validator.OneOf (v : Validator) (field value : String) (allowed : List String) :
    Validator :=
  if oneOfLoop value allowed then v
  else v.AddError field ("must be one of: " ++ Join allowed ", ")

/-- The method `Custom`, lines 121-125. -/
def Validator.Custom (v : Validator) (field : String) (valid : Bool) (message : String) :
    Validator :=
  if !valid then v.AddError field message else v

/-- One call on a validator, among the checks other than `Pattern`. -/
inductive Check where
  | Required (field value : String)
  | MinLength (field value : String) (min : Int)
  | MaxLength (field value : String) (max : Int)
  | Email (field value : String)
  | Range (field : String) (value min max : Int)
  | OneOf (field value : String) (allowed : List String)
  | Custom (field : String) (valid : Bool) (message : String)
  | AddError (field message : String)

/-- The field name given to a call. -/
def Check.field : Check → String
  | .Required field _ => field
  | .MinLength field _ _ => field
  | .MaxLength field _ _ => field
  | .Email field _ => field
  | .Range field _ _ _ => field
  | .OneOf field _ _ => field
  | .Custom field _ _ => field
  | .AddError field _ => field

/-- The call made on a validator. -/
def Check.run (v : Validator) : Check → Validator
  | .Required field value => v.Required field value
  | .MinLength field value min => v.MinLength field value min
  | .MaxLength field value max => v.MaxLength field value max
  | .Email field value => v.Email field value
  | .Range field value min max => v.Range field value min max
  | .OneOf field value allowed => v.OneOf field value allowed
  | .Custom field valid message => v.Custom field valid message
  | .AddError field message => v.AddError field message

/-- Whether a call is a failing check, said without the validator: `Required` on a
value that is empty or all whitespace, `MinLength` and `MaxLength` on a value
whose `len` is below or above the bound, `Email` on a value the pattern does
not match, `Range` on a value outside the closed interval, `OneOf` on a
value that is not in the list, `Custom` on a false condition, and `AddError`
always. -/
def Check.fails : Check → Bool
  | .Required _ value => value.toList.all unicodeIsSpace
  | .MinLength _ value min => decide (len value < min)
  | .MaxLength _ value max => decide (len value > max)
  | .Email _ value => !emailRegex.MatchString value
  | .Range _ value min max => decide (value < min) || decide (value > max)
  | .OneOf _ value allowed => !decide (value ∈ allowed)
  | .Custom _ valid _ => !valid
  | .AddError _ _ => true

/-- The message of the entry a failing check leaves. -/
def Check.message : Check → String
  | .Required _ _ => "is required"
  | .MinLength _ _ min => "must be at least " ++ toString min ++ " characters"
  | .MaxLength _ _ max => "must not exceed " ++ toString max ++ " characters"
  | .Email _ _ => "must be a valid email address"
  | .Range _ _ min max => "must be between " ++ toString min ++ " and " ++ toString max
  | .OneOf _ _ allowed => "must be one of: " ++ Join allowed ", "
  | .Custom _ _ message => message
  | .AddError _ message => message

/-- The entry a failing check leaves: the field name given to the call and the
message of the check. -/
def Check.entry (c : Check) : ValidationError := ⟨c.field, c.message⟩

/-- The number of characters (Unicode code points) of a string, which is what the
messages of `MinLength` and `MaxLength` speak of. -/
def characters (s : String) : Int := (s.length : Nat)

/-- The shape `local@domain.tld` in the words of the specification: a non-empty
local part over `[A-Za-z0-9._%+-]`, a non-empty domain over `[A-Za-z0-9.-]`
and a top-level part of two or more ASCII letters. -/
def EmailShape (value : String) : Prop :=
  ∃ lcl domain tld : List Char,
    value.toList = lcl ++ '@' :: (domain ++ '.' :: tld) ∧
    lcl ≠ [] ∧ (∀ c ∈ lcl, emailLocalChar c = true) ∧
    domain ≠ [] ∧ (∀ c ∈ domain, emailDomainChar c = true) ∧
    2 ≤ tld.length ∧ (∀ c ∈ tld, c.isAlpha = true)

end validator

namespace Go

/-! ## `encoding/json`: the scanner and `Decoder.Decode`, and `http.MaxBytesReader` -/

/-- The conversion `[]byte(s)`: the bytes of the UTF-8 encoding. -/
def bytes (s : String) : List UInt8 :=
  s.toList.flatMap String.utf8EncodeChar

/-- The opcodes a step of the scanner returns. -/
inductive ScanOp where
  | scanContinue
  | scanBeginLiteral
  | scanBeginObject
  | scanObjectKey
  | scanObjectValue
  | scanEndObject
  | scanBeginArray
  | scanArrayValue
  | scanEndArray
  | scanSkipSpace
  | scanEnd
  | scanError
  deriving DecidableEq

/-- The entries of the stack `parseState` of the scanner. -/
inductive ParseState where
  | parseObjectKey
  | parseObjectValue
  | parseArrayValue
  deriving DecidableEq

/-- The step functions of the scanner, by their names in `scanner.go`. -/
inductive StepFn where
  | stateBeginValueOrEmpty
  | stateBeginValue
  | stateBeginStringOrEmpty
  | stateBeginString
  | stateEndValue
  | stateEndTop
  | stateInString
  | stateInStringEsc
  | stateInStringEscU
  | stateInStringEscU1
  | stateInStringEscU12
  | stateInStringEscU123
  | stateNeg
  | state1
  | state0
  | stateDot
  | stateDot0
  | stateE
  | stateESign
  | stateE0
  | stateT
  | stateTr
  | stateTru
  | stateF
  | stateFa
  | stateFal
  | stateFals
  | stateN
  | stateNu
  | stateNul
  | stateError
  deriving DecidableEq

/-- The struct `scanner`: the next step function, the stack with the innermost
entry first, the offset of the syntax error if one was found (its text is
not used by the code), and the count of bytes fed. -/
structure Scanner where
  step : StepFn
  endTop : Bool
  parseState : List ParseState
  err : Option Nat
  bytes : Nat
  deriving DecidableEq

/-- The method `reset`, on a new scanner. -/
def Scanner.reset : Scanner :=
  ⟨StepFn.stateBeginValue, false, [], none, 0⟩

/-- The constant `maxNestingDepth`. -/
def maxNestingDepth : Nat := 10000

/-- The function `isSpace` of the scanner. -/
def isSpace (c : Char) : Bool :=
  c == ' ' || c == Char.ofNat 9 || c == Char.ofNat 13 || c == Char.ofNat 10

/-- The method `error`: records a syntax error at the current byte count. -/
def Scanner.error (s : Scanner) : ScanOp × Scanner :=
  (ScanOp.scanError, { s with step := StepFn.stateError, err := some s.bytes })

/-- The method `pushParseState`. -/
def Scanner.pushParseState (s : Scanner) (newParseState : ParseState) (successState : ScanOp) :
    ScanOp × Scanner :=
  let s := { s with parseState := newParseState :: s.parseState }
  if s.parseState.length ≤ maxNestingDepth then (successState, s) else s.error

/-- The method `popParseState`. -/
def Scanner.popParseState (s : Scanner) : Scanner :=
  let rest := s.parseState.tail
  if rest.length = 0 then { s with parseState := rest, step := StepFn.stateEndTop, endTop := true }
  else { s with parseState := rest, step := StepFn.stateEndValue }

/-- The step `stateEndTop`: after the top-level value; a byte that is not space is
complained about on the next call. -/
def stateEndTop (s : Scanner) (c : Char) : ScanOp × Scanner :=
  if !isSpace c then (ScanOp.scanEnd, s.error.2) else (ScanOp.scanEnd, s)

/-- The step `stateEndValue`: after a value, such as after reading an object key or
an array element. -/
def stateEndValue (s : Scanner) (c : Char) : ScanOp × Scanner :=
  match s.parseState with
  | [] => stateEndTop { s with step := StepFn.stateEndTop, endTop := true } c
  | ps :: rest =>
    if isSpace c then (ScanOp.scanSkipSpace, { s with step := StepFn.stateEndValue })
    else match ps with
      | .parseObjectKey =>
        if c = ':' then
          (ScanOp.scanObjectKey,
            { s with parseState := ParseState.parseObjectValue :: rest,
                     step := StepFn.stateBeginValue })
        else s.error
      | .parseObjectValue =>
        if c = ',' then
          (ScanOp.scanObjectValue,
            { s with parseState := ParseState.parseObjectKey :: rest,
                     step := StepFn.stateBeginString })
        else if c = '}' then (ScanOp.scanEndObject, s.popParseState)
        else s.error
      | .parseArrayValue =>
        if c = ',' then (ScanOp.scanArrayValue, { s with step := StepFn.stateBeginValue })
        else if c = ']' then (ScanOp.scanEndArray, s.popParseState)
        else s.error

/-- The step `stateBeginString`: at the beginning of an object key. -/
def stateBeginString (s : Scanner) (c : Char) : ScanOp × Scanner :=
  if isSpace c then (ScanOp.scanSkipSpace, s)
  else if c = Char.ofNat 34 then (ScanOp.scanBeginLiteral, { s with step := StepFn.stateInString })
  else s.error

/-- The step `stateBeginValue`: at the beginning of a value. -/
def stateBeginValue (s : Scanner) (c : Char) : ScanOp × Scanner :=
  if isSpace c then (ScanOp.scanSkipSpace, s)
  else if c = '{' then
    { s with step := StepFn.stateBeginStringOrEmpty }.pushParseState
      ParseState.parseObjectKey ScanOp.scanBeginObject
  else if c = '[' then
    { s with step := StepFn.stateBeginValueOrEmpty }.pushParseState
      ParseState.parseArrayValue ScanOp.scanBeginArray
  else if c = Char.ofNat 34 then (ScanOp.scanBeginLiteral, { s with step := StepFn.stateInString })
  else if c = '-' then (ScanOp.scanBeginLiteral, { s with step := StepFn.stateNeg })
  else if c = '0' then (ScanOp.scanBeginLiteral, { s with step := StepFn.state0 })
  else if c = 't' then (ScanOp.scanBeginLiteral, { s with step := StepFn.stateT })
  else if c = 'f' then (ScanOp.scanBeginLiteral, { s with step := StepFn.stateF })
  else if c = 'n' then (ScanOp.scanBeginLiteral, { s with step := StepFn.stateN })
  else if '1' ≤ c ∧ c ≤ '9' then (ScanOp.scanBeginLiteral, { s with step := StepFn.state1 })
  else s.error

/-- The step `stateBeginStringOrEmpty`: after the opening brace. -/
def stateBeginStringOrEmpty (s : Scanner) (c : Char) : ScanOp × Scanner :=
  if isSpace c then (ScanOp.scanSkipSpace, s)
  else if c = '}' then
    stateEndValue { s with parseState := ParseState.parseObjectValue :: s.parseState.tail } c
  else stateBeginString s c

/-- The step `stateBeginValueOrEmpty`: after the opening bracket. -/
def stateBeginValueOrEmpty (s : Scanner) (c : Char) : ScanOp × Scanner :=
  if isSpace c then (ScanOp.scanSkipSpace, s)
  else if c = ']' then stateEndValue s c
  else stateBeginValue s c

/-- The step `stateInString`. -/
def stateInString (s : Scanner) (c : Char) : ScanOp × Scanner :=
  if c = Char.ofNat 34 then (ScanOp.scanContinue, { s with step := StepFn.stateEndValue })
  else if c = Char.ofNat 92 then (ScanOp.scanContinue, { s with step := StepFn.stateInStringEsc })
  else if c.toNat < 32 then s.error
  else (ScanOp.scanContinue, s)

/-- The step `stateInStringEsc`: after a backslash in a string. -/
def stateInStringEsc (s : Scanner) (c : Char) : ScanOp × Scanner :=
  if c = 'b' ∨ c = 'f' ∨ c = 'n' ∨ c = 'r' ∨ c = 't' ∨ c = Char.ofNat 92 ∨ c = '/' ∨
      c = Char.ofNat 34 then
    (ScanOp.scanContinue, { s with step := StepFn.stateInString })
  else if c = 'u' then (ScanOp.scanContinue, { s with step := StepFn.stateInStringEscU })
  else s.error

/-- The test for a hexadecimal digit in the four `stateInStringEscU` steps. -/
def isHex (c : Char) : Bool :=
  ('0' ≤ c && c ≤ '9') || ('a' ≤ c && c ≤ 'f') || ('A' ≤ c && c ≤ 'F')

/-- The steps `stateInStringEscU` to `stateInStringEscU123`: a hexadecimal digit leads
to the step given. -/
def stateHex (next : StepFn) (s : Scanner) (c : Char) : ScanOp × Scanner :=
  if isHex c then (ScanOp.scanContinue, { s with step := next }) else s.error

/-- The test for a decimal digit. -/
def isDigit (c : Char) : Bool := '0' ≤ c && c ≤ '9'

/-- The step `stateNeg`: after the minus sign of a number. -/
def stateNeg (s : Scanner) (c : Char) : ScanOp × Scanner :=
  if c = '0' then (ScanOp.scanContinue, { s with step := StepFn.state0 })
  else if '1' ≤ c ∧ c ≤ '9' then (ScanOp.scanContinue, { s with step := StepFn.state1 })
  else s.error

/-- The step `stateESign`: after the sign of an exponent. -/
def stateESign (s : Scanner) (c : Char) : ScanOp × Scanner :=
  if isDigit c then (ScanOp.scanContinue, { s with step := StepFn.stateE0 }) else s.error

/-- The step `stateE`: after the letter of an exponent. -/
def stateE (s : Scanner) (c : Char) : ScanOp × Scanner :=
  if c = '+' ∨ c = '-' then (ScanOp.scanContinue, { s with step := StepFn.stateESign })
  else stateESign s c

/-- The step `stateE0`: in the digits of an exponent. -/
def stateE0 (s : Scanner) (c : Char) : ScanOp × Scanner :=
  if isDigit c then (ScanOp.scanContinue, s) else stateEndValue s c

/-- The step `stateDot`: after the decimal point. -/
def stateDot (s : Scanner) (c : Char) : ScanOp × Scanner :=
  if isDigit c then (ScanOp.scanContinue, { s with step := StepFn.stateDot0 }) else s.error

/-- The step `stateDot0`: in the digits after the decimal point. -/
def stateDot0 (s : Scanner) (c : Char) : ScanOp × Scanner :=
  if isDigit c then (ScanOp.scanContinue, s)
  else if c = 'e' ∨ c = 'E' then (ScanOp.scanContinue, { s with step := StepFn.stateE })
  else stateEndValue s c

/-- The step `state0`: after a leading zero or the digits of a number. -/
def state0 (s : Scanner) (c : Char) : ScanOp × Scanner :=
  if c = '.' then (ScanOp.scanContinue, { s with step := StepFn.stateDot })
  else if c = 'e' ∨ c = 'E' then (ScanOp.scanContinue, { s with step := StepFn.stateE })
  else stateEndValue s c

/-- The step `state1`: in the digits of a number that does not start with zero. -/
def state1 (s : Scanner) (c : Char) : ScanOp × Scanner :=
  if isDigit c then (ScanOp.scanContinue, { s with step := StepFn.state1 }) else state0 s c

/-- The steps inside the literals `true`, `false` and `null`: the expected letter
leads to the step given. -/
def stateLetter (expected : Char) (next : StepFn) (s : Scanner) (c : Char) : ScanOp × Scanner :=
  if c = expected then (ScanOp.scanContinue, { s with step := next }) else s.error

/-- The call `s.step(s, c)`. -/
def Scanner.stepByte (s : Scanner) (c : Char) : ScanOp × Scanner :=
  match s.step with
  | .stateBeginValueOrEmpty => stateBeginValueOrEmpty s c
  | .stateBeginValue => stateBeginValue s c
  | .stateBeginStringOrEmpty => stateBeginStringOrEmpty s c
  | .stateBeginString => stateBeginString s c
  | .stateEndValue => stateEndValue s c
  | .stateEndTop => stateEndTop s c
  | .stateInString => stateInString s c
  | .stateInStringEsc => stateInStringEsc s c
  | .stateInStringEscU => stateHex StepFn.stateInStringEscU1 s c
  | .stateInStringEscU1 => stateHex StepFn.stateInStringEscU12 s c
  | .stateInStringEscU12 => stateHex StepFn.stateInStringEscU123 s c
  | .stateInStringEscU123 => stateHex StepFn.stateInString s c
  | .stateNeg => stateNeg s c
  | .state1 => state1 s c
  | .state0 => state0 s c
  | .stateDot => stateDot s c
  | .stateDot0 => stateDot0 s c
  | .stateE => stateE s c
  | .stateESign => stateESign s c
  | .stateE0 => stateE0 s c
  | .stateT => stateLetter 'r' StepFn.stateTr s c
  | .stateTr => stateLetter 'u' StepFn.stateTru s c
  | .stateTru => stateLetter 'e' StepFn.stateEndValue s c
  | .stateF => stateLetter 'a' StepFn.stateFa s c
  | .stateFa => stateLetter 'l' StepFn.stateFal s c
  | .stateFal => stateLetter 's' StepFn.stateFals s c
  | .stateFals => stateLetter 'e' StepFn.stateEndValue s c
  | .stateN => stateLetter 'u' StepFn.stateNu s c
  | .stateNu => stateLetter 'l' StepFn.stateNul s c
  | .stateNul => stateLetter 'l' StepFn.stateEndValue s c
  | .stateError => (ScanOp.scanError, s)

/-- The errors a `Read` of the body, or of the reader around it, ends with. -/
inductive ReadErr where
  /-- the error `io.EOF`: the body is complete -/
  | EOF
  /-- the error `io.ErrUnexpectedEOF` -/
  | ErrUnexpectedEOF
  /-- the error `http.ErrNotSupported` -/
  | ErrNotSupported
  /-- the error of `http.MaxBytesReader` once the limit is passed -/
  | MaxBytesError
  /-- any other error, by its text -/
  | other (msg : String)
  deriving DecidableEq

/-- The method `Error()` of these errors. -/
def ReadErr.Error : ReadErr → String
  | .EOF => "EOF"
  | .ErrUnexpectedEOF => "unexpected EOF"
  | .ErrNotSupported => "feature not supported"
  | .MaxBytesError => "http: request body too large"
  | .other msg => msg

/-- A request body as a reader: the bytes it yields and the error it ends with
(`io.EOF` for a body that arrived whole). -/
structure Body where
  data : List UInt8
  err : ReadErr
  deriving DecidableEq

/-- The reader `http.MaxBytesReader(nil, body, n)`: a negative limit counts as
zero; a body within the limit passes through; of a longer body the first `n`
bytes are delivered and then the error, which is raised by the read that
gets byte `n + 1`. -/
def MaxBytesReader (body : Body) (n : Int) : Body :=
  let n := if n < 0 then 0 else n
  if body.data.length ≤ n.toNat then body
  else ⟨body.data.take n.toNat, ReadErr.MaxBytesError⟩

/-- What the loop of `Decoder.readValue` finds in the buffered bytes. -/
inductive ScanResult where
  /-- a complete value of `n` bytes -/
  | value (n : Nat)
  /-- a syntax error, with its offset -/
  | syntaxError (offset : Nat)
  /-- the bytes are used up and the value is not complete -/
  | exhausted (s : Scanner)
  deriving DecidableEq

/-- The inner loop of `Decoder.readValue` over the bytes the reader delivers, from
scan position `scanp`: it stops at the end of the first value or at a
syntax error. How the reads are cut into chunks does not matter to it, the
error of a read being looked at only when the buffered bytes are used up. -/
def scanBuf (s : Scanner) (scanp : Nat) : List UInt8 → ScanResult
  | [] => ScanResult.exhausted s
  | c :: rest =>
    let r := { s with bytes := s.bytes + 1 }.stepByte (Char.ofNat c.toNat)
    match r.1 with
    | .scanEnd => ScanResult.value scanp
    | .scanEndObject | .scanEndArray =>
      let r2 := stateEndValue r.2 ' '
      if r2.1 = ScanOp.scanEnd then ScanResult.value (scanp + 1)
      else scanBuf r2.2 (scanp + 1) rest
    | .scanError => ScanResult.syntaxError (r.2.err.getD 0)
    | _ => scanBuf r.2 (scanp + 1) rest

/-- The errors storing a complete value in the destination can return. -/
inductive UnmarshalErr where
  /-- a `*json.UnmarshalTypeError` with its `Field` -/
  | UnmarshalTypeError (field : String)
  /-- any other error (an unknown field, a destination that is not a pointer),
  by its text -/
  | other (msg : String)
  deriving DecidableEq

/-- The errors `Decode` returns. -/
inductive DecodeErr where
  /-- a `*json.SyntaxError` with its `Offset` -/
  | SyntaxError (offset : Nat)
  /-- the error of the reader -/
  | read (e : ReadErr)
  /-- the error of storing the value -/
  | unmarshal (e : UnmarshalErr)
  deriving DecidableEq

/-- The destination `dst` with the decoder's options, by what storing a complete
JSON value in it returns. -/
structure Dst where
  unmarshal : List UInt8 → Option UnmarshalErr

/-- A destination of type `*interface{}`, which takes every value. -/
def Dst.any : Dst := ⟨fun _ => none⟩

/-- The two points in which the releases of `encoding/json` differ on the bytes a
reader delivers. The decoder built on the scanner sees the end of a top-level
literal, number or string only on the byte after it, and the `Offset` of its
syntax errors counts the bytes read, the offending one included; the decoder
built on `jsontext` completes a literal or a string on its last byte, and
counts offsets in its own way. -/
structure Release where
  /-- whether a top-level value that lacks nothing but a byte after it is taken as
  complete when the reader has ended with an error other than `io.EOF`, from
  the bytes delivered -/
  completesAtReadError : List UInt8 → Bool
  /-- the field `Offset` of the `*json.SyntaxError`, from the bytes delivered and the
  number of bytes the scanner has read, the offending one included -/
  syntaxOffset : List UInt8 → Nat → Nat

/-- The decoder built on the scanner (`scanner.go`, `stream.go`). -/
def Release.scanner : Release := ⟨fun _ => false, fun _ n => n⟩

/-- The first call of `Decoder.Decode(dst)`: `readValue` scans the delivered bytes;
when they are used up, at `io.EOF` a value that only lacked its end (a number,
string or literal at the top level) is complete, otherwise the error is
`io.ErrUnexpectedEOF` after some non-space byte and `io.EOF` after none; at any
other error of the reader such a value is complete where the release takes
it so, and otherwise the error of the reader is returned as it is. A
complete value is stored in `dst`. -/
def Decode (rel : Release) (body : Body) (dst : Dst) : Option DecodeErr :=
  match scanBuf Scanner.reset 0 body.data with
  | .value n => (dst.unmarshal (body.data.take n)).map DecodeErr.unmarshal
  | .syntaxError offset => some (DecodeErr.SyntaxError (rel.syntaxOffset body.data offset))
  | .exhausted s =>
    if body.err = ReadErr.EOF then
      if (s.stepByte ' ').1 = ScanOp.scanEnd then
        (dst.unmarshal body.data).map DecodeErr.unmarshal
      else if body.data.any (fun c => !isSpace (Char.ofNat c.toNat)) then
        some (DecodeErr.read ReadErr.ErrUnexpectedEOF)
      else some (DecodeErr.read ReadErr.EOF)
    else if (s.stepByte ' ').1 = ScanOp.scanEnd && rel.completesAtReadError body.data then
      (dst.unmarshal body.data).map DecodeErr.unmarshal
    else some (DecodeErr.read body.err)

/-- The verb `%q` on a string whose characters are printable: quote and backslash
are escaped. -/
def fmtQ (s : String) : String :=
  String.mk (Char.ofNat 34 :: (s.toList.flatMap (fun c =>
    if c = Char.ofNat 34 ∨ c = Char.ofNat 92 then [Char.ofNat 92, c] else [c]) ++
      [Char.ofNat 34]))

end Go

namespace httputil

open Go

/-- The last two cases of the switch in `ReadJSON`, lines 85-89, on the text of
the error. -/
def readJSONDefault (maxBytes : Int) (text : String) : String :=
  if text = "http: request body too large" then
    "request body must not exceed " ++ toString maxBytes ++ " bytes"
  else "failed to decode JSON: " ++ text

/-- The switch of `ReadJSON`, lines 71-90, on what `Decode` returned, with the limit
in effect: the returned error by its text, `none` for nil. -/
def readJSONResult (maxBytes : Int) : Option DecodeErr → Option String
  | none => none
  | some (.SyntaxError offset) => some ("malformed JSON at position " ++ toString offset)
  | some (.unmarshal (.UnmarshalTypeError field)) =>
    some ("invalid value for field " ++ fmtQ field)
  | some (.read ReadErr.ErrNotSupported) => some "unsupported media type"
  | some (.read e) => some (readJSONDefault maxBytes e.Error)
  | some (.unmarshal (.other msg)) => some (readJSONDefault maxBytes msg)

/-- The function `ReadJSON`, lines 61-94, on the body of the request, with the
release of `encoding/json` it is built with: the returned error by its text,
`none` for nil. -/
def ReadJSON (rel : Release) (body : Body) (dst : Dst) (maxBytes : Int) : Option String :=
  let maxBytes := if maxBytes = 0 then 1048576 else maxBytes
  let body := MaxBytesReader body maxBytes
  readJSONResult maxBytes (Decode rel body dst)

end httputil

/-! # Theorems -/

namespace Go

/-- Reading back the key just set gives the value set. -/
theorem Header.Get_Set_self (h : Header) (key value : String) :
    (h.Set key value).Get key = value := by
  simp [Header.Get, Header.Set]

/-- Filtering out another key does not change what is stored under a key. -/
theorem lookup_filter_ne (es : List (String × List String)) (k k1 : String) (hk : k1 ≠ k) :
    (es.filter (fun e => e.1 != k)).lookup k1 = es.lookup k1 := by
  induction es with
  | nil => rfl
  | cons e es ih =>
    obtain ⟨a, b⟩ := e
    by_cases ha : a = k
    · subst ha
      have h1 : (k1 == a) = false := by simpa using hk
      simp [List.filter_cons, List.lookup_cons, h1, ih]
    · by_cases hb : k1 = a
      · subst hb
        simp [List.filter_cons, ha]
      · have h1 : (k1 == a) = false := by simpa using hb
        simp [List.filter_cons, List.lookup_cons, ha, h1, ih]

/-- Setting a key leaves the value read under a key of another canonical form alone. -/
theorem Header.Get_Set_other (h : Header) (key key1 value : String)
    (hk : canonicalMIMEHeaderKey key1 ≠ canonicalMIMEHeaderKey key) :
    (h.Set key value).Get key1 = h.Get key1 := by
  have h1 : (canonicalMIMEHeaderKey key1 == canonicalMIMEHeaderKey key) = false := by
    simpa using hk
  simp [Header.Get, Header.Set, List.lookup_cons, h1, lookup_filter_ne _ _ _ hk]

/-- Digits accumulate in front of a non-empty list. -/
theorem toDigitsCore_ne_nil (b fuel n : Nat) (ds : List Char) (hds : ds ≠ []) :
    Nat.toDigitsCore b fuel n ds ≠ [] := by
  induction fuel generalizing n ds with
  | zero => simpa [Nat.toDigitsCore] using hds
  | succ f ih =>
    simp only [Nat.toDigitsCore]
    split
    · simp
    · exact ih _ _ (by simp)

/-- The decimal text of an integer is never empty. -/
theorem toString_int_ne_empty (n : Int) : toString n ≠ "" := by
  have key : ∀ m : Nat, Nat.repr m ≠ "" := by
    intro m h
    have h1 : (Nat.repr m).data = [] := by rw [h]
    have h2 : Nat.toDigitsCore 10 (m + 1) m [] ≠ [] := by
      simp only [Nat.toDigitsCore]
      split
      · simp
      · exact toDigitsCore_ne_nil _ _ _ _ (by simp)
    exact h2 (by simpa [Nat.repr, Nat.toDigits, List.asString] using h1)
  cases n with
  | ofNat m => exact key m
  | negSucc m =>
    intro h
    have h1 : (toString (Int.negSucc m)).data = [] := by rw [h]
    simp [toString, instToStringInt, Int.repr] at h1

end Go

namespace httputil

open Go

/-- The method `WriteHeader` with a three-digit code that is not informational: the
code becomes the status unless a header was sent before, and the call does
not panic. -/
theorem WriteHeader_valid (w : ResponseWriter) (code : Int) (h : checkWriteHeaderCode code = true)
    (hi : informational code = false) :
    w.WriteHeader code = .ok { w with code := some (w.code.getD code) } := by
  unfold ResponseWriter.WriteHeader
  cases hc : w.code with
  | none => simp [h, hi]
  | some c =>
    obtain ⟨hd, cd, bd⟩ := w
    simp only at hc
    subst hc
    simp

/-- A text that ends with a newline is not empty. -/
theorem append_newline_ne_empty (text : String) : text ++ "\n" ≠ "" := by
  intro h
  have := congrArg String.length h
  simp only [String.length_append] at this
  have h1 : "\n".length = 1 := by decide
  have h0 : "".length = 0 := by decide
  omega

/-- What `Write` does with bytes that are not empty. -/
theorem Write_nonempty (w : ResponseWriter) (data : String) (hd : data ≠ "") :
    w.Write data =
      if bodyAllowedForStatus (w.code.getD 200)
      then ({ w with code := some (w.code.getD 200), body := w.body ++ data }, none)
      else ({ w with code := some (w.code.getD 200) }, some ErrBodyNotAllowed) := by
  unfold ResponseWriter.Write
  simp only [hd, if_false, Option.getD_some]

/-- What `WriteJSON` does with a three-digit status that is not informational and a
value that marshals: the body is written when the status in effect allows
one, and refused with the error of `Write` otherwise. -/
theorem WriteJSON_ok {α : Type} [JSONValue α] (w : ResponseWriter) (status : Int) (data : α)
    (text : String) (hs : checkWriteHeaderCode status = true)
    (hi : informational status = false)
    (hn : JSONValue.isNil data = false) (hm : JSONValue.marshal data = .ok text) :
    WriteJSON w status data =
      if bodyAllowedForStatus (w.code.getD status) then
        ⟨{ header := w.header.Set "Content-Type" "application/json",
           code := some (w.code.getD status),
           body := w.body ++ (text ++ "\n") }, none, none⟩
      else
        ⟨{ header := w.header.Set "Content-Type" "application/json",
           code := some (w.code.getD status),
           body := w.body },
          some ("failed to encode JSON response: " ++ ErrBodyNotAllowed), none⟩ := by
  unfold WriteJSON
  simp only [WriteHeader_valid _ _ hs hi, hn, Encode, hm,
    Write_nonempty _ _ (append_newline_ne_empty text)]
  by_cases hb : bodyAllowedForStatus (w.code.getD status) = true
  · simp [ResponseWriter.setHeader, hb]
  · simp [ResponseWriter.setHeader, hb]

/-- The JSON text of the envelope of `WriteError`. -/
theorem marshal_error_response (code message : String) :
    JSONValue.marshal
        ({ Success := false, Data := Any.nil, Error := some ⟨code, message⟩ } : Response) =
      .ok ("\x7b\"success\":false,\"error\":\x7b\"code\":" ++ quote code ++
        ",\"message\":" ++ quote message ++ "\x7d\x7d") := by
  show Response.marshal _ = _
  simp [Response.marshal, ErrorInfo.marshal, String.append_assoc]
  rw [← String.append_assoc, ← String.append_assoc]
  rfl

/-- What `WriteError` does for a three-digit status that is not informational: the
envelope is written when the status in effect allows a body, and refused
with the error of `Write` otherwise. -/
theorem WriteError_eq (w : ResponseWriter) (status : Int) (code message : String)
    (hs : checkWriteHeaderCode status = true) (hi : informational status = false) :
    WriteError w status code message =
      if bodyAllowedForStatus (w.code.getD status) then
        ⟨{ header := w.header.Set "Content-Type" "application/json",
           code := some (w.code.getD status),
           body := w.body ++ ("\x7b\"success\":false,\"error\":\x7b\"code\":" ++ quote code ++
             ",\"message\":" ++ quote message ++ "\x7d\x7d" ++ "\n") }, none, none⟩
      else
        ⟨{ header := w.header.Set "Content-Type" "application/json",
           code := some (w.code.getD status),
           body := w.body },
          some ("failed to encode JSON response: " ++ ErrBodyNotAllowed), none⟩ := by
  unfold WriteError
  rw [WriteJSON_ok w status _ _ hs hi rfl (marshal_error_response code message)]

/-- The calls of `WriteError`, written out. -/
theorem writeErrorCalls_eq (status : Int) (code message : String) :
    writeErrorCalls status code message =
      [WCall.setHeader "Content-Type" "application/json", WCall.writeHeader status,
        WCall.write ("\x7b\"success\":false,\"error\":\x7b\"code\":" ++ quote code ++
          ",\"message\":" ++ quote message ++ "\x7d\x7d" ++ "\n")] := by
  unfold writeErrorCalls writeJSONCalls
  have hn : JSONValue.isNil
      ({ Success := false, Data := Any.nil, Error := some ⟨code, message⟩ } : Response) =
      false := rfl
  simp only [hn, marshal_error_response code message]
  rfl

/-- The calls of `WriteError`, made one after the other on a writer, leave it as
`WriteError` does, for a three-digit status that is not informational. -/
theorem replay_writeErrorCalls (w : ResponseWriter) (status : Int) (code message : String)
    (hs : checkWriteHeaderCode status = true) (hi : informational status = false) :
    replay (writeErrorCalls status code message) w =
      .ok (WriteError w status code message).w := by
  rw [writeErrorCalls_eq]
  unfold WriteError WriteJSON
  simp only [replay, WCall.exec, WriteHeader_valid _ _ hs hi, Encode,
    marshal_error_response code message]
  have hn : JSONValue.isNil
      ({ Success := false, Data := Any.nil, Error := some ⟨code, message⟩ } : Response) =
      false := rfl
  simp only [hn, Bool.false_eq_true, if_false]
  generalize hw : ({ (w.setHeader "Content-Type" "application/json") with
    code := some ((w.setHeader "Content-Type" "application/json").code.getD status) } :
      ResponseWriter).Write _ = r
  obtain ⟨w3, e⟩ := r
  cases e <;> rfl

/-- The writer `CORS` hands on: the loop, the fallback and the three fixed headers
touch the header map only; an `OPTIONS` request ends there with
`WriteHeader(200)` and every other request goes to the wrapped handler. -/
theorem CORS_shape (allowedOrigins : List String) (w : ResponseWriter) (r : Request) :
    ∃ w1 : ResponseWriter, w1.code = w.code ∧ w1.body = w.body ∧
      w1.header.Get "Access-Control-Allow-Origin" =
        (let lw := corsLoop (r.Header.Get "Origin") w allowedOrigins
         (if !lw.1 && decide (allowedOrigins.length > 0)
          then lw.2.setHeader "Access-Control-Allow-Origin" (allowedOrigins.getD 0 "")
          else lw.2).header.Get "Access-Control-Allow-Origin") ∧
      ∀ next : Handler, CORS allowedOrigins next w r =
        if r.Method = "OPTIONS" then ⟨{ w1 with code := some (w.code.getD 200) }, none⟩
        else next w1 r := by
  have hloop : ∀ (l : List String) (origin : String),
      (corsLoop origin w l).2.code = w.code ∧ (corsLoop origin w l).2.body = w.body := by
    intro l origin
    induction l with
    | nil => simp [corsLoop]
    | cons o rest ih =>
      unfold corsLoop
      split
      · simp [ResponseWriter.setHeader]
      · exact ih
  obtain ⟨w1, hw1⟩ : ∃ w1 : ResponseWriter, w1 = (((if !(corsLoop (r.Header.Get "Origin") w allowedOrigins).1 &&
        decide (allowedOrigins.length > 0)
      then (corsLoop (r.Header.Get "Origin") w allowedOrigins).2.setHeader
        "Access-Control-Allow-Origin" (allowedOrigins.getD 0 "")
      else (corsLoop (r.Header.Get "Origin") w allowedOrigins).2).setHeader
        "Access-Control-Allow-Methods" "GET, POST, PUT, DELETE, OPTIONS").setHeader
        "Access-Control-Allow-Headers" "Content-Type, Authorization").setHeader "Vary" "Origin" :=
    ⟨_, rfl⟩
  have hcode : w1.code = w.code := by
    have := (hloop allowedOrigins (r.Header.Get "Origin")).1
    rw [hw1]
    split <;> simp [ResponseWriter.setHeader, this]
  have hbody : w1.body = w.body := by
    have := (hloop allowedOrigins (r.Header.Get "Origin")).2
    rw [hw1]
    split <;> simp [ResponseWriter.setHeader, this]
  refine ⟨w1, hcode, hbody, ?_, fun next => ?_⟩
  · rw [hw1]
    simp only [ResponseWriter.setHeader]
    rw [Header.Get_Set_other _ _ _ _ (by decide), Header.Get_Set_other _ _ _ _ (by decide),
      Header.Get_Set_other _ _ _ _ (by decide)]
  · unfold CORS
    simp only [WriteHeader_valid _ 200 (by decide) (by decide)]
    rw [← hw1, hcode]

/-- The loop on a list that holds the origin stops at a match and echoes the origin. -/
theorem corsLoop_listed (origin : String) (w : ResponseWriter) (l : List String)
    (h : origin ∈ l) :
    corsLoop origin w l = (true, w.setHeader "Access-Control-Allow-Origin" origin) := by
  induction l with
  | nil => simp at h
  | cons o rest ih =>
    unfold corsLoop
    split
    · rfl
    · rename_i hno
      rcases List.mem_cons.1 h with h1 | h1
      · exact absurd (Or.inl h1.symm) hno
      · exact ih h1

/-- The loop on a list with neither the origin nor the wildcard finds no match and
leaves the writer alone. -/
theorem corsLoop_unlisted (origin : String) (w : ResponseWriter) (l : List String)
    (h : origin ∉ l) (hstar : "*" ∉ l) : corsLoop origin w l = (false, w) := by
  induction l with
  | nil => rfl
  | cons o rest ih =>
    unfold corsLoop
    have h1 : ¬ (o = origin ∨ o = "*") := by
      rintro (h1 | h1)
      · exact h (by simp [h1])
      · exact hstar (by simp [h1])
    rw [if_neg h1]
    exact ih (fun hm => h (List.mem_cons_of_mem _ hm)) (fun hm => hstar (List.mem_cons_of_mem _ hm))

end httputil

/-! ## The timeout guard -/

namespace httputil

open Go

/-- The three calls of the timeout branch. -/
theorem timeoutCalls_eq :
    timeoutCalls =
      [WCall.setHeader "Content-Type" "application/json", WCall.writeHeader 408,
        WCall.write
          "\x7b\"success\":false,\"error\":\x7b\"code\":\"timeout\",\"message\":\"Request timeout\"\x7d\x7d\n"] := by
  decide

/-- No call of the timeout branch panics. -/
theorem timeoutCalls_exec_ok (c : WCall) (hc : c ∈ timeoutCalls) (w : ResponseWriter) :
    ∃ w1, c.exec w = .ok w1 := by
  rw [timeoutCalls_eq] at hc
  simp only [List.mem_cons, List.mem_singleton, List.not_mem_nil, or_false] at hc
  rcases hc with rfl | rfl | rfl
  · exact ⟨_, rfl⟩
  · exact ⟨_, WriteHeader_valid w 408 (by decide) (by decide)⟩
  · exact ⟨_, rfl⟩

/-- The calls of the timeout branch, made one after the other, are `WriteError`
with status 408, code `timeout` and message `Request timeout`. -/
theorem replay_timeoutCalls (w : ResponseWriter) :
    replay timeoutCalls w = .ok (WriteError w 408 "timeout" "Request timeout").w :=
  replay_writeErrorCalls w 408 "timeout" "Request timeout" (by decide) (by decide)

/-- Replaying a log extended by one call. -/
theorem replay_append_one (cs : List WCall) (c : WCall) (w0 w w1 : ResponseWriter)
    (h : replay cs w0 = .ok w) (hc : c.exec w = .ok w1) : replay (cs ++ [c]) w0 = .ok w1 := by
  induction cs generalizing w0 with
  | nil =>
    simp only [replay] at h
    cases h
    simp [replay, hc]
  | cons d ds ih =>
    simp only [replay, List.cons_append] at h ⊢
    cases hd : d.exec w0 with
    | error v => simp [hd] at h
    | ok w2 =>
      simp only [hd] at h ⊢
      exact ih _ h

/-- The calls of a goroutine in a log extended by one entry. -/
theorem callsBy_append_one (who who1 : Who) (log : List (Who × WCall)) (c : WCall) :
    callsBy who (log ++ [(who1, c)]) =
      if who1 = who then callsBy who log ++ [c] else callsBy who log := by
  unfold callsBy
  by_cases h : who1 = who <;> simp [List.filter_append, h]

/-- A log without calls of the guard holds the handler's calls only. -/
theorem callsBy_handler_of_no_guard (log : List (Who × WCall))
    (h : callsBy Who.guard log = []) : callsBy Who.handler log = log.map (fun e => e.2) := by
  induction log with
  | nil => rfl
  | cons e rest ih =>
    obtain ⟨who, c⟩ := e
    cases who with
    | guard => simp [callsBy] at h
    | handler =>
      have h1 : callsBy Who.guard rest = [] := by simpa [callsBy] using h
      have := ih h1
      simp only [callsBy] at this ⊢
      simp [this]

/-- The state in which the guard reaches its `select` satisfies the invariant. -/
theorem Timeout.inv_init {σ : Type} (duration : Int) (p : HandlerProc σ) (w : ResponseWriter)
    (now : Int) (parentDone : Bool) :
    Timeout.Inv w (now + duration) (Timeout.init duration p w now parentDone) := by
  simp [Timeout.Inv, Timeout.guardInv, Timeout.init, replay, callsBy]

/-- The guard's part of the invariant passes to a state in which the guard is
where it was and has made the same calls, while time and the parent context
may have moved on. -/
theorem Timeout.guardInv_carry {σ : Type} (dl : Int) (s s1 : TState σ) (hg : s1.g = s.g)
    (hlog : callsBy Who.guard s1.log = callsBy Who.guard s.log)
    (hc : s1.cancelled = s.cancelled) (hp : s.parentDone = true → s1.parentDone = true)
    (hn : s.now ≤ s1.now) (hh : s.h = HPc.exited → s1.h = HPc.exited)
    (h : Timeout.guardInv dl s) : Timeout.guardInv dl s1 := by
  unfold Timeout.guardInv at h ⊢
  rw [hg, hlog, hc]
  generalize s.g = g at h ⊢
  cases g with
  | selecting => exact h
  | writing rest => exact ⟨h.1, h.2.imp hp (fun h1 => le_trans h1 hn)⟩
  | returned r =>
    cases r with
    | Completed => exact ⟨h.1, hh h.2⟩
    | DeadlineExceeded => exact ⟨h.1, h.2.imp hp (fun h1 => le_trans h1 hn)⟩
  | panicked v => exact h

/-- Every event keeps the invariant. -/
theorem Timeout.inv_step {σ : Type} (p : HandlerProc σ) (w0 : ResponseWriter) (dl : Int)
    (s s1 : TState σ) (e : Event) (hinv : Timeout.Inv w0 dl s)
    (hstep : Timeout.step p s e = some s1) : Timeout.Inv w0 dl s1 := by
  obtain ⟨hw, hdl, hg⟩ := hinv
  unfold Timeout.step at hstep
  split at hstep
  · exact absurd hstep (by simp)
  cases e with
  | tick =>
    simp only [Option.some.injEq] at hstep
    subst hstep
    exact ⟨hw, hdl, Timeout.guardInv_carry dl s _ rfl rfl rfl id (by simp) id hg⟩
  | parentCancel =>
    simp only [Option.some.injEq] at hstep
    subst hstep
    exact ⟨hw, hdl, Timeout.guardInv_carry dl s _ rfl rfl rfl (fun _ => rfl) le_rfl id hg⟩
  | handler =>
    simp only at hstep
    split at hstep
    · rename_i st hst
      have hne : s.h = HPc.exited → False := by
        intro h
        rw [hst] at h
        cases h
      split at hstep
      · rename_i c st1 hps
        split at hstep
        · rename_i w1 hexec
          simp only [Option.some.injEq] at hstep
          subst hstep
          refine ⟨?_, hdl, Timeout.guardInv_carry dl s _ rfl ?_ rfl id le_rfl
            (fun h => absurd h (fun h1 => hne h1)) hg⟩
          · simp only [List.map_append, List.map_cons, List.map_nil]
            exact replay_append_one _ _ _ _ _ hw hexec
          · simp [callsBy_append_one]
        · simp only [Option.some.injEq] at hstep
          subst hstep
          exact ⟨hw, hdl, Timeout.guardInv_carry dl s _ rfl rfl rfl id le_rfl id hg⟩
      · simp only [Option.some.injEq] at hstep
        subst hstep
        exact ⟨hw, hdl, Timeout.guardInv_carry dl s _ rfl rfl rfl id le_rfl
          (fun h => absurd h (fun h1 => hne h1)) hg⟩
      · simp only [Option.some.injEq] at hstep
        subst hstep
        exact ⟨hw, hdl, Timeout.guardInv_carry dl s _ rfl rfl rfl id le_rfl
          (fun h => absurd h (fun h1 => hne h1)) hg⟩
      · simp only [Option.some.injEq] at hstep
        subst hstep
        exact ⟨hw, hdl, Timeout.guardInv_carry dl s _ rfl rfl rfl id le_rfl id hg⟩
    · exact absurd hstep (by simp)
  | recvDone =>
    simp only at hstep
    split at hstep
    · rename_i hgs hhs
      simp only [Option.some.injEq] at hstep
      subst hstep
      unfold Timeout.guardInv at hg
      rw [hgs] at hg
      exact ⟨hw, hdl, by simp only [Timeout.guardInv]; exact ⟨hg.1, trivial⟩⟩
    · exact absurd hstep (by simp)
  | recvCtxDone =>
    simp only at hstep
    split at hstep
    · rename_i hgs
      split at hstep
      · rename_i hdone
        simp only [Option.some.injEq] at hstep
        subst hstep
        unfold Timeout.guardInv at hg
        rw [hgs] at hg
        simp only at hg
        refine ⟨hw, hdl, ?_⟩
        simp only [Timeout.guardInv]
        refine ⟨by simp [hg.1], ?_⟩
        simp only [TState.ctxDone, hg.2, Bool.or_false, Bool.or_eq_true,
          decide_eq_true_eq] at hdone
        rw [← hdl]
        exact hdone
      · exact absurd hstep (by simp)
    · exact absurd hstep (by simp)
  | guardCall =>
    simp only at hstep
    unfold Timeout.guardInv at hg
    split at hstep
    · rename_i c rest hgs
      rw [hgs] at hg
      simp only at hg
      have hmem : c ∈ timeoutCalls := by
        rw [← hg.1]
        simp
      obtain ⟨w1, hexec⟩ := timeoutCalls_exec_ok c hmem s.w
      rw [hexec] at hstep
      simp only [Option.some.injEq] at hstep
      subst hstep
      refine ⟨?_, hdl, ?_⟩
      · simp only [List.map_append, List.map_cons, List.map_nil]
        exact replay_append_one _ _ _ _ _ hw hexec
      · simp only [Timeout.guardInv, callsBy_append_one, if_true, List.append_assoc,
          List.singleton_append]
        exact hg
    · rename_i hgs
      rw [hgs] at hg
      simp only [List.append_nil] at hg
      simp only [Option.some.injEq] at hstep
      subst hstep
      exact ⟨hw, hdl, by simp only [Timeout.guardInv]; exact hg⟩
    · exact absurd hstep (by simp)

/-- Every schedule keeps the invariant. -/
theorem Timeout.inv_run {σ : Type} (p : HandlerProc σ) (w0 : ResponseWriter) (dl : Int)
    (sched : List Event) (s s1 : TState σ) (hinv : Timeout.Inv w0 dl s)
    (hrun : Timeout.run p s sched = some s1) : Timeout.Inv w0 dl s1 := by
  induction sched generalizing s with
  | nil =>
    simp only [Timeout.run, Option.some.injEq] at hrun
    subst hrun
    exact hinv
  | cons e es ih =>
    simp only [Timeout.run] at hrun
    cases hs : Timeout.step p s e with
    | none => simp [hs] at hrun
    | some s2 =>
      simp only [hs] at hrun
      exact ih s2 (Timeout.inv_step p w0 dl s s2 e hinv hs) hrun

/-- From a state in which the guard is in the timeout branch with calls that cannot
panic pending, the guard's steps alone make these calls on the shared writer,
one after the other, log them as the guard's, and reach the return; the
handler goroutine is left where it was. -/
theorem Timeout.run_writing {σ : Type} (p : HandlerProc σ) (rest : List WCall) (s : TState σ)
    (hg : s.g = GPc.writing rest) (hcr : s.crashed = false)
    (hok : ∀ c ∈ rest, ∀ w : ResponseWriter, ∃ w1, c.exec w = .ok w1) :
    ∃ s1, Timeout.run p s (List.replicate (rest.length + 1) Event.guardCall) = some s1 ∧
      s1.g = GPc.returned RaceResult.DeadlineExceeded ∧
      replay rest s.w = .ok s1.w ∧
      s1.log = s.log ++ rest.map (fun c => (Who.guard, c)) ∧
      s1.h = s.h := by
  induction rest generalizing s with
  | nil =>
    refine ⟨{ s with g := GPc.returned RaceResult.DeadlineExceeded, cancelled := true }, ?_, rfl,
      rfl, by simp, rfl⟩
    simp [Timeout.run, Timeout.step, hcr, hg]
  | cons c cs ih =>
    obtain ⟨w1, hexec⟩ := hok c (by simp) s.w
    obtain ⟨s1, hs1, hg1, hw1, hl1, hh1⟩ := ih
      { s with w := w1, log := s.log ++ [(Who.guard, c)], g := GPc.writing cs } rfl hcr
      (fun d hd => hok d (List.mem_cons_of_mem _ hd))
    refine ⟨s1, ?_, hg1, ?_, ?_, hh1⟩
    · have hstep : Timeout.step p s Event.guardCall =
          some { s with w := w1, log := s.log ++ [(Who.guard, c)], g := GPc.writing cs } := by
        simp [Timeout.step, hcr, hg, hexec]
      rw [List.length_cons, List.replicate_succ]
      simp only [Timeout.run, hstep]
      exact hs1
    · simp only [replay, hexec]
      exact hw1
    · rw [hl1]
      simp

end httputil

/-! ## Claims on the sequential helpers and middleware -/

namespace httputil

open Go logger

/-- C4 (code defect): `RequestID` stores the id under the plain string key
`"request_id"`, `Logger.WithContext` looks under its own key type, so the
logger gets from the context handed to the next handler exactly what it got
from the inbound context, and for the request `X-Request-ID: abc` with an
empty context it comes back without any `request_id` field although the
context holds the id. -/
theorem RequestID_invisible_to_logger :
    (∀ (unixNano : Int) (w : ResponseWriter) (r : Request) (l : Logger),
      ∃ (w1 : ResponseWriter) (r1 : Request),
        (∀ next : Handler, RequestID unixNano next w r = next w1 r1) ∧
        l.WithContext r1.ctx = l.WithContext r.ctx) ∧
    (∃ (w1 : ResponseWriter) (r1 : Request),
        (∀ next : Handler, RequestID 0 next ResponseWriter.fresh requestWithID = next w1 r1) ∧
        r1.ctx.Value ⟨"string", "request_id"⟩ = Any.str "abc" ∧
        (Logger.mk []).WithContext r1.ctx = Logger.mk []) := by
  refine ⟨fun unixNano w r l => ⟨_, _, fun next => rfl, ?_⟩, ⟨_, _, fun next => rfl, ?_, ?_⟩⟩
  · have hk : (requestIDKey == (⟨"string", "request_id"⟩ : CtxKey)) = false := by decide
    simp [Logger.WithContext, Context.Value, Context.WithValue, Request.WithContext,
      List.lookup_cons, hk]
  · decide
  · decide

/-- C5: the id `RequestID` writes to the `X-Request-ID` response header is the
one it stores in the context handed to the next handler under
`"request_id"`; it is the inbound header when that is not empty and the
decimal clock reading otherwise, and it is never empty. -/
theorem RequestID_header_matches_context (unixNano : Int) (w : ResponseWriter) (r : Request) :
    ∃ (id : String) (w1 : ResponseWriter) (r1 : Request),
      (∀ next : Handler, RequestID unixNano next w r = next w1 r1) ∧
      w1.header.Get "X-Request-ID" = id ∧
      r1.ctx.Value ⟨"string", "request_id"⟩ = Any.str id ∧
      id = (if r.Header.Get "X-Request-ID" = "" then toString unixNano
            else r.Header.Get "X-Request-ID") ∧
      id ≠ "" := by
  refine ⟨_, _, _, fun next => rfl, ?_, ?_, rfl, ?_⟩
  · simp [ResponseWriter.setHeader, Header.Get_Set_self]
  · simp [Context.Value, Context.WithValue, Request.WithContext]
  · split
    · exact toString_int_ne_empty _
    · assumption

/-- C6: when the request's `Origin` is an entry of the allow-list, the writer
`CORS` hands to the wrapped handler (and, for `OPTIONS`, returns) carries
`Access-Control-Allow-Origin` equal to that `Origin`. -/
theorem CORS_echoes_listed_origin (allowedOrigins : List String) (w : ResponseWriter)
    (r : Request) (h : r.Header.Get "Origin" ∈ allowedOrigins) :
    ∃ w1 : ResponseWriter,
      w1.header.Get "Access-Control-Allow-Origin" = r.Header.Get "Origin" ∧
      ∀ next : Handler, CORS allowedOrigins next w r =
        if r.Method = "OPTIONS" then ⟨{ w1 with code := some (w.code.getD 200) }, none⟩
        else next w1 r := by
  obtain ⟨w1, -, -, hget, hrun⟩ := CORS_shape allowedOrigins w r
  refine ⟨w1, ?_, hrun⟩
  rw [hget, corsLoop_listed _ _ _ h]
  simp [ResponseWriter.setHeader, Header.Get_Set_self]

/-- C6 at `Origin: https://a.test` against the allow-list `["https://a.test"]`. -/
theorem CORS_echoes_listed_origin_witness :
    ∃ w1 : ResponseWriter,
      w1.header.Get "Access-Control-Allow-Origin" = "https://a.test" ∧
      ∀ next : Handler, CORS ["https://a.test"] next ResponseWriter.fresh requestFromA =
        if requestFromA.Method = "OPTIONS"
        then ⟨{ w1 with code := some (ResponseWriter.fresh.code.getD 200) }, none⟩
        else next w1 requestFromA :=
  CORS_echoes_listed_origin ["https://a.test"] ResponseWriter.fresh requestFromA (by decide)

/-- C7 as stated fails: against the allow-list `["https://a.test", "*"]` the origin
`https://b.test` is not an entry, yet the header is that origin and not the
first entry. -/
theorem CORS_wildcard_echoes_unlisted_origin :
    requestFromB.Header.Get "Origin" ∉ ["https://a.test", "*"] ∧
    (CORS ["https://a.test", "*"] idleHandler ResponseWriter.fresh requestFromB).w.header.Get
      "Access-Control-Allow-Origin" = "https://b.test" ∧
    (CORS ["https://a.test", "*"] idleHandler ResponseWriter.fresh requestFromB).w.header.Get
      "Access-Control-Allow-Origin" ≠ (["https://a.test", "*"] : List String).getD 0 "" := by
  decide

/-- C7, amended: for a non-empty allow-list without the wildcard entry and a
request whose `Origin` is not an entry, `Access-Control-Allow-Origin` is the
first entry of the list. -/
theorem CORS_falls_back_to_first (allowedOrigins : List String) (w : ResponseWriter)
    (r : Request) (hne : allowedOrigins ≠ []) (h : r.Header.Get "Origin" ∉ allowedOrigins)
    (hstar : "*" ∉ allowedOrigins) :
    ∃ w1 : ResponseWriter,
      w1.header.Get "Access-Control-Allow-Origin" = allowedOrigins.head hne ∧
      ∀ next : Handler, CORS allowedOrigins next w r =
        if r.Method = "OPTIONS" then ⟨{ w1 with code := some (w.code.getD 200) }, none⟩
        else next w1 r := by
  obtain ⟨w1, -, -, hget, hrun⟩ := CORS_shape allowedOrigins w r
  refine ⟨w1, ?_, hrun⟩
  rw [hget, corsLoop_unlisted _ _ _ h hstar]
  cases allowedOrigins with
  | nil => exact absurd rfl hne
  | cons first rest => simp [ResponseWriter.setHeader, Header.Get_Set_self]

/-- C7 amended, at `Origin: https://b.test` against `["https://a.test", "https://c.test"]`. -/
theorem CORS_falls_back_to_first_witness :
    ∃ w1 : ResponseWriter,
      w1.header.Get "Access-Control-Allow-Origin" = "https://a.test" ∧
      ∀ next : Handler,
        CORS ["https://a.test", "https://c.test"] next ResponseWriter.fresh requestFromB =
          if requestFromB.Method = "OPTIONS"
          then ⟨{ w1 with code := some (ResponseWriter.fresh.code.getD 200) }, none⟩
          else next w1 requestFromB :=
  CORS_falls_back_to_first ["https://a.test", "https://c.test"] ResponseWriter.fresh requestFromB
    (by decide) (by decide) (by decide)

/-- C8: `CORS` only touches the header map before it branches on the method; an
`OPTIONS` request ends with `WriteHeader(200)` (status 200 unless a header was
sent before), no body byte written and a result that does not depend on the
wrapped handler; any other request is the wrapped handler's single call on
the same request. -/
theorem CORS_options_short_circuit (allowedOrigins : List String) (w : ResponseWriter)
    (r : Request) :
    ∃ w1 : ResponseWriter, w1.code = w.code ∧ w1.body = w.body ∧
      ∀ next : Handler, CORS allowedOrigins next w r =
        if r.Method = "OPTIONS" then ⟨{ w1 with code := some (w.code.getD 200) }, none⟩
        else next w1 r := by
  obtain ⟨w1, hcode, hbody, -, hrun⟩ := CORS_shape allowedOrigins w r
  exact ⟨w1, hcode, hbody, hrun⟩

/-- C9: whatever value the wrapped handler panics with, `Recover` ends without a
panic and has made the calls of `WriteError(500, "internal_error",
"Internal server error")` on the writer as the handler left it: the status is
500 unless the handler had sent a header, and the same fixed body is
appended (the writer refuses it only after a handler that had sent a status
of its own that allows no body: 1xx, 204 or 304); when the wrapped handler
returns, `Recover` adds nothing. -/
theorem Recover_fixed_response (next : Handler) (w : ResponseWriter) (r : Request) :
    Recover next w r =
      (match (next w r).panic with
      | none => next w r
      | some _ =>
        ⟨(WriteError (next w r).w 500 "internal_error" "Internal server error").w, none⟩) ∧
    Recover next w r =
      (match (next w r).panic with
      | none => next w r
      | some _ =>
        ⟨{ header := (next w r).w.header.Set "Content-Type" "application/json",
           code := some ((next w r).w.code.getD 500),
           body :=
             if bodyAllowedForStatus ((next w r).w.code.getD 500) then
               (next w r).w.body ++
                 "\x7b\"success\":false,\"error\":\x7b\"code\":\"internal_error\",\"message\":\"Internal server error\"\x7d\x7d\n"
             else (next w r).w.body }, none⟩) ∧
    (bodyAllowedForStatus ((next w r).w.code.getD 500) = true →
      ∀ v, (next w r).panic = some v →
      Recover next w r =
        ⟨{ header := (next w r).w.header.Set "Content-Type" "application/json",
           code := some ((next w r).w.code.getD 500),
           body := (next w r).w.body ++
             "\x7b\"success\":false,\"error\":\x7b\"code\":\"internal_error\",\"message\":\"Internal server error\"\x7d\x7d\n" },
          none⟩) := by
  have hq : ("\x7b\"success\":false,\"error\":\x7b\"code\":" ++ quote "internal_error" ++
      ",\"message\":" ++ quote "Internal server error" ++ "\x7d\x7d" ++ "\n") =
      "\x7b\"success\":false,\"error\":\x7b\"code\":\"internal_error\",\"message\":\"Internal server error\"\x7d\x7d\n" := by
    decide
  have hcall : Recover next w r =
      (match (next w r).panic with
      | none => next w r
      | some _ =>
        ⟨(WriteError (next w r).w 500 "internal_error" "Internal server error").w, none⟩) := by
    unfold Recover
    cases hp : (next w r).panic with
    | none =>
      have : next w r = ⟨(next w r).w, none⟩ := by rw [← hp]
      simp only [hp, recover, ne_eq, not_true_eq_false, if_false]
      exact this.symm
    | some v =>
      have hr : recover (some v) ≠ Any.nil := by
        cases v <;> simp [recover]
      simp only [hp]
      rw [if_pos hr]
      rw [WriteError_eq _ 500 _ _ (by decide) (by decide)]
      by_cases hb : bodyAllowedForStatus ((next w r).w.code.getD 500) = true
      · simp only [hb, if_true]
      · simp only [hb, if_false]
        rfl
  have hform : ∀ w1 : ResponseWriter,
      (WriteError w1 500 "internal_error" "Internal server error").w =
        { header := w1.header.Set "Content-Type" "application/json",
          code := some (w1.code.getD 500),
          body :=
            if bodyAllowedForStatus (w1.code.getD 500) then
              w1.body ++
                "\x7b\"success\":false,\"error\":\x7b\"code\":\"internal_error\",\"message\":\"Internal server error\"\x7d\x7d\n"
            else w1.body } := by
    intro w1
    rw [WriteError_eq _ 500 _ _ (by decide) (by decide), hq]
    by_cases hb : bodyAllowedForStatus (w1.code.getD 500) = true
    · simp only [hb, if_true]
    · simp only [hb, if_false]
      rfl
  have hexp : Recover next w r =
      (match (next w r).panic with
      | none => next w r
      | some _ =>
        ⟨{ header := (next w r).w.header.Set "Content-Type" "application/json",
           code := some ((next w r).w.code.getD 500),
           body :=
             if bodyAllowedForStatus ((next w r).w.code.getD 500) then
               (next w r).w.body ++
                 "\x7b\"success\":false,\"error\":\x7b\"code\":\"internal_error\",\"message\":\"Internal server error\"\x7d\x7d\n"
             else (next w r).w.body }, none⟩) := by
    rw [hcall]
    cases hp : (next w r).panic with
    | none => rfl
    | some v =>
      simp only
      rw [hform]
  refine ⟨hcall, hexp, fun hb v hp => ?_⟩
  rw [hexp]
  simp only [hp, hb, if_true]

end httputil

namespace httputil

open Go

/-- C1 as stated fails, with a deadline of one nanosecond and the handler of
scenario A. On the first schedule the deadline passes, the guard writes the
whole timeout response and returns, and the lagging handler then writes its
response to the same writer. On the second the handler has written its
response but not yet returned when the deadline passes, and the guard
appends the timeout response. Either way both responses are in the log of
the writer and in the body. -/
theorem Timeout_both_responses_written :
    (Timeout.run okHandler (Timeout.init 1 okHandler ResponseWriter.fresh 0 false)
      [Event.tick, Event.recvCtxDone, Event.guardCall, Event.guardCall, Event.guardCall,
        Event.guardCall, Event.handler, Event.handler, Event.handler, Event.handler]).map
      (fun s => (s.g, callsBy Who.guard s.log, callsBy Who.handler s.log, s.w.code, s.w.body)) =
    some (GPc.returned RaceResult.DeadlineExceeded,
      [WCall.setHeader "Content-Type" "application/json", WCall.writeHeader 408,
        WCall.write
          "\x7b\"success\":false,\"error\":\x7b\"code\":\"timeout\",\"message\":\"Request timeout\"\x7d\x7d\n"],
      [WCall.setHeader "Content-Type" "application/json", WCall.writeHeader 200,
        WCall.write "\x7b\"success\":true,\"data\":\"ok\"\x7d\n"],
      some 408,
      "\x7b\"success\":false,\"error\":\x7b\"code\":\"timeout\",\"message\":\"Request timeout\"\x7d\x7d\n\x7b\"success\":true,\"data\":\"ok\"\x7d\n") ∧
    (Timeout.run okHandler (Timeout.init 1 okHandler ResponseWriter.fresh 0 false)
      [Event.handler, Event.handler, Event.handler, Event.tick, Event.recvCtxDone,
        Event.guardCall, Event.guardCall, Event.guardCall, Event.guardCall]).map
      (fun s => (s.g, callsBy Who.guard s.log, callsBy Who.handler s.log, s.w.code, s.w.body)) =
    some (GPc.returned RaceResult.DeadlineExceeded,
      [WCall.setHeader "Content-Type" "application/json", WCall.writeHeader 408,
        WCall.write
          "\x7b\"success\":false,\"error\":\x7b\"code\":\"timeout\",\"message\":\"Request timeout\"\x7d\x7d\n"],
      [WCall.setHeader "Content-Type" "application/json", WCall.writeHeader 200,
        WCall.write "\x7b\"success\":true,\"data\":\"ok\"\x7d\n"],
      some 200,
      "\x7b\"success\":true,\"data\":\"ok\"\x7d\n\x7b\"success\":false,\"error\":\x7b\"code\":\"timeout\",\"message\":\"Request timeout\"\x7d\x7d\n") :=
  ⟨by decide, by decide⟩

/-- C1, amended: in every state of every schedule the guard's own calls on the
writer are an initial part of the one timeout response, and the guard has
made a call only in the timeout branch; the calls of the wrapped handler on
the same writer are not bounded by the guard. -/
theorem Timeout_guard_writes_at_most_once {σ : Type} (duration : Int) (p : HandlerProc σ)
    (w : ResponseWriter) (now : Int) (parentDone : Bool) (sched : List Event) (s : TState σ)
    (h : Timeout.run p (Timeout.init duration p w now parentDone) sched = some s) :
    (∃ rest, callsBy Who.guard s.log ++ rest = timeoutCalls) ∧
    (callsBy Who.guard s.log ≠ [] →
      (∃ rest, s.g = GPc.writing rest) ∨ s.g = GPc.returned RaceResult.DeadlineExceeded) := by
  obtain ⟨-, -, hg⟩ := Timeout.inv_run p w (now + duration) sched _ s
    (Timeout.inv_init duration p w now parentDone) h
  unfold Timeout.guardInv at hg
  cases hgs : s.g with
  | selecting =>
    rw [hgs] at hg
    exact ⟨⟨timeoutCalls, by simp [hg.1]⟩, fun hne => absurd hg.1 hne⟩
  | writing rest =>
    rw [hgs] at hg
    exact ⟨⟨rest, hg.1⟩, fun _ => Or.inl ⟨rest, rfl⟩⟩
  | returned r =>
    cases r with
    | Completed =>
      rw [hgs] at hg
      exact ⟨⟨timeoutCalls, by simp [hg.1]⟩, fun hne => absurd hg.1 hne⟩
    | DeadlineExceeded =>
      rw [hgs] at hg
      exact ⟨⟨[], by simp [hg.1]⟩, fun _ => Or.inr rfl⟩
  | panicked v =>
    rw [hgs] at hg
    exact absurd hg id

/-- C1 amended, on the schedule in which the deadline passes and the guard has
made two of its three calls. -/
theorem Timeout_guard_writes_at_most_once_witness :
    ∃ s : TState (List WCall),
      Timeout.run okHandler (Timeout.init 1 okHandler ResponseWriter.fresh 0 false)
        [Event.tick, Event.recvCtxDone, Event.guardCall, Event.handler, Event.guardCall] =
        some s ∧
      (∃ rest, callsBy Who.guard s.log ++ rest = timeoutCalls) ∧
      (callsBy Who.guard s.log ≠ [] →
        (∃ rest, s.g = GPc.writing rest) ∨ s.g = GPc.returned RaceResult.DeadlineExceeded) :=
  ⟨_, rfl, Timeout_guard_writes_at_most_once 1 okHandler ResponseWriter.fresh 0 false
    [Event.tick, Event.recvCtxDone, Event.guardCall, Event.handler, Event.guardCall] _ rfl⟩

/-- C2: the calls of the timeout branch are `WriteError` with status 408, code
`timeout` and message `Request timeout`, whose body is the JSON text of the
spec and the encoder's newline. In every state of every schedule the shared
writer is the initial one after the logged calls, in order; whenever the
guard has returned through the timeout branch its calls in that log are
exactly these, once; and from any state in which the guard waits with
`ctx.Done()` closed, the branch runs through to the return, logs exactly these
calls and leaves the shared writer as `WriteError(w, 408, "timeout",
"Request timeout")` makes it from the writer of that state: `Content-Type` set,
status 408 unless a header was sent before, and the body of the spec
appended. -/
theorem Timeout_deadline_branch_writes_timeout_response {σ : Type} (duration : Int)
    (p : HandlerProc σ) (w : ResponseWriter) (now : Int) (parentDone : Bool)
    (sched : List Event) (s : TState σ)
    (h : Timeout.run p (Timeout.init duration p w now parentDone) sched = some s) :
    (∀ w1 : ResponseWriter,
      replay timeoutCalls w1 = .ok (WriteError w1 408 "timeout" "Request timeout").w) ∧
    timeoutCalls =
      [WCall.setHeader "Content-Type" "application/json", WCall.writeHeader 408,
        WCall.write
          "\x7b\"success\":false,\"error\":\x7b\"code\":\"timeout\",\"message\":\"Request timeout\"\x7d\x7d\n"] ∧
    (∀ w1 : ResponseWriter,
      (WriteError w1 408 "timeout" "Request timeout").w =
        { header := w1.header.Set "Content-Type" "application/json",
          code := some (w1.code.getD 408),
          body :=
            if bodyAllowedForStatus (w1.code.getD 408) then
              w1.body ++
                "\x7b\"success\":false,\"error\":\x7b\"code\":\"timeout\",\"message\":\"Request timeout\"\x7d\x7d\n"
            else w1.body }) ∧
    replay (s.log.map (fun e => e.2)) w = .ok s.w ∧
    (s.g = GPc.returned RaceResult.DeadlineExceeded → callsBy Who.guard s.log = timeoutCalls) ∧
    (s.g = GPc.selecting → s.ctxDone = true → s.crashed = false →
      ∃ s1, Timeout.run p s [Event.recvCtxDone, Event.guardCall, Event.guardCall,
          Event.guardCall, Event.guardCall] = some s1 ∧
        s1.g = GPc.returned RaceResult.DeadlineExceeded ∧
        callsBy Who.guard s1.log = timeoutCalls ∧
        s1.log = s.log ++ timeoutCalls.map (fun c => (Who.guard, c)) ∧
        s1.w = (WriteError s.w 408 "timeout" "Request timeout").w ∧
        s1.h = s.h) := by
  have hinv := Timeout.inv_run p w (now + duration) sched _ s
    (Timeout.inv_init duration p w now parentDone) h
  have hq : ("\x7b\"success\":false,\"error\":\x7b\"code\":" ++ quote "timeout" ++
      ",\"message\":" ++ quote "Request timeout" ++ "\x7d\x7d" ++ "\n") =
      "\x7b\"success\":false,\"error\":\x7b\"code\":\"timeout\",\"message\":\"Request timeout\"\x7d\x7d\n" := by
    decide
  refine ⟨replay_timeoutCalls, timeoutCalls_eq, ?_, hinv.1, ?_, ?_⟩
  · intro w1
    rw [WriteError_eq _ 408 _ _ (by decide) (by decide), hq]
    by_cases hb : bodyAllowedForStatus (w1.code.getD 408) = true
    · simp only [hb, if_true]
    · simp only [hb, if_false]
      rfl
  · intro hgs
    have hg := hinv.2.2
    unfold Timeout.guardInv at hg
    rw [hgs] at hg
    exact hg.1
  · intro hgs hdone hcr
    have h0 : Timeout.step p s Event.recvCtxDone =
        some { s with g := GPc.writing timeoutCalls } := by
      simp [Timeout.step, hcr, hgs, hdone]
    obtain ⟨s1, hs1, hg1, hw1, hl1, hh1⟩ := Timeout.run_writing p timeoutCalls
      { s with g := GPc.writing timeoutCalls } rfl hcr timeoutCalls_exec_ok
    have hrun : Timeout.run p s [Event.recvCtxDone, Event.guardCall, Event.guardCall,
          Event.guardCall, Event.guardCall] = some s1 := by
      rw [show timeoutCalls.length + 1 = 4 from rfl] at hs1
      simp only [Timeout.run, h0]
      exact hs1
    refine ⟨s1, hrun, hg1, ?_, hl1, ?_, hh1⟩
    · have hg := (Timeout.inv_run p w (now + duration) _ s s1 hinv hrun).2.2
      unfold Timeout.guardInv at hg
      rw [hg1] at hg
      exact hg.1
    · have hr := replay_timeoutCalls s.w
      have hw1a : replay timeoutCalls s.w = .ok s1.w := hw1
      rw [hr] at hw1a
      exact (Except.ok.inj hw1a).symm

/-- C2 on the schedule of scenario B: the deadline passes while the handler has not
started, and the guard runs the timeout branch to its return; the response
then carries the header, status 408 and the body of the timeout response. -/
theorem Timeout_deadline_branch_writes_timeout_response_witness :
    ∃ s : TState (List WCall),
      Timeout.run okHandler (Timeout.init 1 okHandler ResponseWriter.fresh 0 false)
        [Event.tick, Event.recvCtxDone, Event.guardCall, Event.guardCall, Event.guardCall,
          Event.guardCall] = some s ∧
      s.g = GPc.returned RaceResult.DeadlineExceeded ∧
      callsBy Who.guard s.log = timeoutCalls ∧
      s.w = ⟨⟨[("Content-Type", ["application/json"])]⟩, some 408,
        "\x7b\"success\":false,\"error\":\x7b\"code\":\"timeout\",\"message\":\"Request timeout\"\x7d\x7d\n"⟩ :=
  ⟨_, rfl, rfl,
    (Timeout_deadline_branch_writes_timeout_response 1 okHandler ResponseWriter.fresh 0 false
      [Event.tick, Event.recvCtxDone, Event.guardCall, Event.guardCall, Event.guardCall,
        Event.guardCall] _ rfl).2.2.2.2.1 rfl, by decide⟩

/-- C3 as stated fails: with a deadline of one second and the handler of scenario A,
which finishes at clock 0, the inbound context is cancelled before the
handler has run; the guard takes the timeout branch and writes the timeout
response, the handler writes its own after it, and the caller sees status
408. -/
theorem Timeout_parent_cancel_beats_fast_handler :
    ∃ s : TState (List WCall),
      Timeout.run okHandler (Timeout.init 1000000000 okHandler ResponseWriter.fresh 0 false)
        [Event.parentCancel, Event.recvCtxDone, Event.guardCall, Event.guardCall,
          Event.guardCall, Event.guardCall, Event.handler, Event.handler, Event.handler,
          Event.handler] = some s ∧
      s.h = HPc.sending ∧ s.now = 0 ∧ s.deadline = 1000000000 ∧
      s.g = GPc.returned RaceResult.DeadlineExceeded ∧
      callsBy Who.guard s.log =
        [WCall.setHeader "Content-Type" "application/json", WCall.writeHeader 408,
          WCall.write
            "\x7b\"success\":false,\"error\":\x7b\"code\":\"timeout\",\"message\":\"Request timeout\"\x7d\x7d\n"] ∧
      s.w.code = some 408 :=
  ⟨_, rfl, by decide, by decide, by decide, by decide, by decide, by decide⟩

/-- C3, amended: the guard is in the timeout branch only when the inbound context
is done or the clock has reached the start plus the duration; whenever the
guard has returned through the completion branch it has made no call on the
writer, the handler goroutine is gone, and the writer is the initial one
after the handler's calls alone; and while `ctx.Done()` is open and the
handler waits to send, the `select` cannot take the timeout branch and can
take the completion branch. -/
theorem Timeout_completion_branch_handler_only {σ : Type} (duration : Int) (p : HandlerProc σ)
    (w : ResponseWriter) (now : Int) (parentDone : Bool) (sched : List Event) (s : TState σ)
    (h : Timeout.run p (Timeout.init duration p w now parentDone) sched = some s) :
    (((∃ rest, s.g = GPc.writing rest) ∨ s.g = GPc.returned RaceResult.DeadlineExceeded) →
      s.parentDone = true ∨ now + duration ≤ s.now) ∧
    (s.g = GPc.returned RaceResult.Completed →
      callsBy Who.guard s.log = [] ∧ s.h = HPc.exited ∧
      replay (callsBy Who.handler s.log) w = .ok s.w) ∧
    (s.g = GPc.selecting → s.h = HPc.sending → s.ctxDone = false → s.crashed = false →
      Timeout.step p s Event.recvCtxDone = none ∧
      ∃ s1, Timeout.step p s Event.recvDone = some s1 ∧
        s1.g = GPc.returned RaceResult.Completed ∧ s1.w = s.w) := by
  obtain ⟨hw, -, hg⟩ := Timeout.inv_run p w (now + duration) sched _ s
    (Timeout.inv_init duration p w now parentDone) h
  unfold Timeout.guardInv at hg
  refine ⟨?_, ?_, ?_⟩
  · rintro (⟨rest, hgs⟩ | hgs)
    · rw [hgs] at hg
      exact hg.2
    · rw [hgs] at hg
      exact hg.2
  · intro hgs
    rw [hgs] at hg
    refine ⟨hg.1, hg.2, ?_⟩
    rw [callsBy_handler_of_no_guard _ hg.1]
    exact hw
  · intro hgs hhs hdone hcr
    simp [Timeout.step, hgs, hhs, hdone, hcr]

/-- C3 amended, on the schedule of scenario A: the handler makes its three calls and
returns, and the `select` receives from `done`. -/
theorem Timeout_completion_branch_handler_only_witness :
    ∃ s : TState (List WCall),
      Timeout.run okHandler (Timeout.init 50000000 okHandler ResponseWriter.fresh 0 false)
        [Event.handler, Event.tick, Event.handler, Event.handler, Event.handler,
          Event.recvDone] = some s ∧
      callsBy Who.guard s.log = [] ∧ s.h = HPc.exited ∧
      replay (callsBy Who.handler s.log) ResponseWriter.fresh = .ok s.w ∧
      s.w = ⟨⟨[("Content-Type", ["application/json"])]⟩, some 200,
        "\x7b\"success\":true,\"data\":\"ok\"\x7d\n"⟩ :=
  ⟨_, rfl,
    ((Timeout_completion_branch_handler_only 50000000 okHandler ResponseWriter.fresh 0 false
      [Event.handler, Event.tick, Event.handler, Event.handler, Event.handler,
        Event.recvDone] _ rfl).2.1 rfl).1,
    ((Timeout_completion_branch_handler_only 50000000 okHandler ResponseWriter.fresh 0 false
      [Event.handler, Event.tick, Event.handler, Event.handler, Event.handler,
        Event.recvDone] _ rfl).2.1 rfl).2.1,
    ((Timeout_completion_branch_handler_only 50000000 okHandler ResponseWriter.fresh 0 false
      [Event.handler, Event.tick, Event.handler, Event.handler, Event.handler,
        Event.recvDone] _ rfl).2.1 rfl).2.2,
    by decide⟩

end httputil

/-! ## The validator -/

namespace Go

/-- Dropping white space leaves nothing exactly when everything is white space. -/
theorem dropWhile_eq_nil_iff_all (p : Char → Bool) (l : List Char) :
    l.dropWhile p = [] ↔ ∀ c ∈ l, p c = true := by
  induction l with
  | nil => simp
  | cons a rest ih =>
    by_cases ha : p a = true
    · simp [List.dropWhile_cons, ha, ih]
    · simp [List.dropWhile_cons, ha]

/-- What is left after dropping starts with a character outside the class. -/
theorem dropWhile_head_not (p : Char → Bool) (l : List Char) (a : Char) (rest : List Char)
    (h : l.dropWhile p = a :: rest) : p a = false := by
  induction l with
  | nil => simp at h
  | cons b tail ih =>
    by_cases hb : p b = true
    · rw [List.dropWhile_cons, if_pos hb] at h
      exact ih h
    · rw [List.dropWhile_cons, if_neg hb] at h
      cases h
      simpa using hb

/-- Trimming a list at both ends leaves nothing exactly when every element is in
the class. -/
theorem trim_eq_nil_iff (p : Char → Bool) (l : List Char) :
    ((l.dropWhile p).reverse.dropWhile p).reverse = [] ↔ ∀ c ∈ l, p c = true := by
  constructor
  · intro h
    have h2 : ∀ c ∈ (l.dropWhile p).reverse, p c = true :=
      (dropWhile_eq_nil_iff_all _ _).1 (List.reverse_eq_nil_iff.1 h)
    cases hd : l.dropWhile p with
    | nil => exact (dropWhile_eq_nil_iff_all _ _).1 hd
    | cons a rest =>
      have h6 : p a = true := h2 a (by simp [hd])
      have h7 := dropWhile_head_not p l a rest hd
      rw [h6] at h7
      cases h7
  · intro h
    have h1 : l.dropWhile p = [] := (dropWhile_eq_nil_iff_all _ _).2 h
    simp [h1]

/-- The trimmed string is empty exactly when the string has white space only. -/
theorem TrimSpace_eq_empty_iff (s : String) :
    TrimSpace s = "" ↔ ∀ c ∈ s.toList, unicodeIsSpace c = true := by
  rw [← trim_eq_nil_iff]
  unfold TrimSpace
  constructor
  · intro h
    exact congrArg String.data h
  · intro h
    rw [h]

/-- Joining a non-empty list whose first element is not empty gives a non-empty text. -/
theorem Join_ne_empty (a : String) (rest : List String) (sep : String) (ha : a ≠ "") :
    Join (a :: rest) sep ≠ "" := by
  have hlen : 0 < a.length := by
    cases a with
    | mk l =>
      cases l with
      | nil => exact absurd rfl ha
      | cons c cs => simp [String.length]
  cases rest with
  | nil => simpa [Join] using ha
  | cons b rest =>
    intro h
    have := congrArg String.length h
    simp [Join, String.length_append] at this
    omega

end Go

namespace validator

open Go

/-- The loop of `OneOf` finds the value exactly when it is in the list. -/
theorem oneOfLoop_iff (value : String) (allowed : List String) :
    oneOfLoop value allowed = true ↔ value ∈ allowed := by
  induction allowed with
  | nil => simp [oneOfLoop]
  | cons a rest ih =>
    unfold oneOfLoop
    by_cases h : value = a
    · simp [h]
    · simp [h, ih]

/-- The text of an error is never empty. -/
theorem ValidationError.Error_ne_empty (e : ValidationError) : e.Error ≠ "" := by
  intro h
  have := congrArg String.length h
  simp only [ValidationError.Error, String.length_append] at this
  have h1 : "validation failed for field '".length = 29 := by decide
  have h2 : "".length = 0 := rfl
  omega

/-- A call on a validator appends its entry when the check fails and leaves the
validator as it is otherwise. -/
theorem Check.run_eq (v : Validator) (c : Check) :
    c.run v = if c.fails then ⟨v.errors ++ [c.entry]⟩ else v := by
  cases c with
  | Required field value =>
    simp only [Check.run, Check.fails, Check.entry, Check.field, Check.message,
      Validator.Required, Validator.AddError]
    by_cases h : TrimSpace value = ""
    · have h1 : value.toList.all unicodeIsSpace = true := by
        rw [List.all_eq_true]
        exact (TrimSpace_eq_empty_iff value).1 h
      rw [if_pos h, if_pos h1]
    · have h1 : ¬ (value.toList.all unicodeIsSpace = true) := by
        intro h2
        rw [List.all_eq_true] at h2
        exact h ((TrimSpace_eq_empty_iff value).2 h2)
      rw [if_neg h, if_neg h1]
  | MinLength field value min =>
    simp only [Check.run, Check.fails, Check.entry, Check.field, Check.message,
      Validator.MinLength, Validator.AddError]
    by_cases h : len value < min <;> simp [h]
  | MaxLength field value max =>
    simp only [Check.run, Check.fails, Check.entry, Check.field, Check.message,
      Validator.MaxLength, Validator.AddError]
    by_cases h : len value > max <;> simp [h]
  | Email field value =>
    simp only [Check.run, Check.fails, Check.entry, Check.field, Check.message,
      Validator.Email, Validator.AddError]
  | Range field value min max =>
    simp only [Check.run, Check.fails, Check.entry, Check.field, Check.message,
      Validator.Range, Validator.AddError]
    by_cases h1 : value < min <;> by_cases h2 : value > max <;> simp [h1, h2]
  | OneOf field value allowed =>
    simp only [Check.run, Check.fails, Check.entry, Check.field, Check.message,
      Validator.OneOf, Validator.AddError]
    by_cases h : value ∈ allowed
    · have h1 : oneOfLoop value allowed = true := (oneOfLoop_iff value allowed).2 h
      simp [h, h1]
    · have h1 : ¬ (oneOfLoop value allowed = true) := fun h2 =>
        h ((oneOfLoop_iff value allowed).1 h2)
      simp [h, h1]
  | Custom field valid message =>
    simp only [Check.run, Check.fails, Check.entry, Check.field, Check.message,
      Validator.Custom, Validator.AddError]
  | AddError field message =>
    simp only [Check.run, Check.fails, Check.entry, Check.field, Check.message,
      Validator.AddError, if_true]

/-- C13: after any sequence of calls among `Required`, `MinLength`, `MaxLength`,
`Email`, `Range`, `OneOf`, `Custom` and `AddError` on a new validator,
`Errors()` holds exactly one entry for each failing check of the sequence, in
call order, with the field name given to that check and the message of the
check, and nothing else; a check fails exactly under the condition of its
method (`Required`: the value is empty or all whitespace; `MinLength`,
`MaxLength`: `len` of the value is below, above the bound; `Email`: the pattern
does not match; `Range`: the value is outside the closed interval; `OneOf`:
the value is not in the list; `Custom`: the condition is false; `AddError`:
always). `ErrorMessages()` is the entries rendered by `Error()` and joined
with `"; "`, and it is empty exactly when `IsValid()` holds, which is exactly
when no check of the sequence fails. -/
theorem Errors_one_entry_per_failing_check :
    (∀ checks : List Check,
      (checks.foldl Check.run New).Errors = (checks.filter Check.fails).map Check.entry) ∧
    (∀ (c : Check) (v : Validator),
      (c.run v).Errors = if c.fails then v.Errors ++ [⟨c.field, c.message⟩] else v.Errors) ∧
    (∀ checks : List Check,
      (checks.foldl Check.run New).ErrorMessages =
        Join (((checks.filter Check.fails).map Check.entry).map
          (fun e => "validation failed for field '" ++ e.Field ++ "': " ++ e.Message)) "; ") ∧
    (∀ checks : List Check,
      (checks.foldl Check.run New).IsValid = true ↔ ∀ c ∈ checks, c.fails = false) ∧
    (∀ v : Validator, v.ErrorMessages =
      Join (v.Errors.map
        (fun e => "validation failed for field '" ++ e.Field ++ "': " ++ e.Message)) "; ") ∧
    (∀ v : Validator, v.ErrorMessages = "" ↔ v.IsValid = true) := by
  have key : ∀ (cs : List Check) (v : Validator),
      (cs.foldl Check.run v).errors = v.errors ++ (cs.filter Check.fails).map Check.entry := by
    intro cs
    induction cs with
    | nil => intro v; simp
    | cons c rest ih =>
      intro v
      rw [List.foldl_cons, ih, Check.run_eq v c]
      by_cases hf : c.fails = true
      · simp [hf]
      · simp [hf]
  have hall : ∀ checks : List Check,
      (checks.foldl Check.run New).Errors = (checks.filter Check.fails).map Check.entry := by
    intro checks
    simpa [Validator.Errors, New] using key checks New
  have hmsg : ∀ v : Validator, v.ErrorMessages =
      Join (v.Errors.map
        (fun e => "validation failed for field '" ++ e.Field ++ "': " ++ e.Message)) "; " := by
    intro v
    unfold Validator.ErrorMessages Validator.IsValid Validator.Errors
    cases h : v.errors with
    | nil => simp [Join]
    | cons e rest => simp [ValidationError.Error]
  refine ⟨hall, ?_, ?_, ?_, hmsg, ?_⟩
  · intro c v
    rw [Check.run_eq v c]
    by_cases hf : c.fails = true
    · simp [hf, Validator.Errors, Check.entry]
    · simp [hf, Validator.Errors]
  · intro checks
    rw [hmsg, hall]
  · intro checks
    have h1 := hall checks
    unfold Validator.Errors at h1
    unfold Validator.IsValid
    rw [h1]
    simp [List.filter_eq_nil_iff]
  · intro v
    unfold Validator.ErrorMessages Validator.IsValid
    cases h : v.errors with
    | nil => simp
    | cons e rest =>
      simp only [List.length_cons, List.map_cons]
      constructor
      · intro h1
        exact absurd (by simpa using h1) (Join_ne_empty e.Error _ "; " e.Error_ne_empty)
      · intro h1
        simp at h1

/-- C14: the method `Required` appends the one entry with the given field and the
message `is required` when every character of the value is white space (the
empty value included), and returns the validator as it was otherwise. -/
theorem Required_records_iff_blank (v : Validator) (field value : String) :
    v.Required field value =
      if value.toList.all unicodeIsSpace then ⟨v.errors ++ [⟨field, "is required"⟩]⟩ else v := by
  unfold Validator.Required Validator.AddError
  by_cases h : TrimSpace value = ""
  · rw [if_pos h, if_pos]
    simpa using (TrimSpace_eq_empty_iff value).1 h
  · rw [if_neg h, if_neg]
    intro h1
    exact h ((TrimSpace_eq_empty_iff value).2 (by simpa using h1))

/-- C15 (code defect): `MinLength` and `MaxLength` compare `len(value)`, the number
of bytes, with the bound, while their messages speak of characters. The value
`é` is one character and two bytes: `MaxLength` with bound 1 records
`must not exceed 1 characters` for it, and `MinLength` with bound 2 lets it
pass. -/
theorem Length_checks_count_bytes :
    (∀ (v : Validator) (field value : String) (n : Int),
      v.MinLength field value n =
        if len value < n
        then ⟨v.errors ++ [⟨field, "must be at least " ++ toString n ++ " characters"⟩]⟩
        else v) ∧
    (∀ (v : Validator) (field value : String) (n : Int),
      v.MaxLength field value n =
        if len value > n
        then ⟨v.errors ++ [⟨field, "must not exceed " ++ toString n ++ " characters"⟩]⟩
        else v) ∧
    characters "é" = 1 ∧ len "é" = 2 ∧
    (New.MaxLength "name" "é" 1).Errors = [⟨"name", "must not exceed 1 characters"⟩] ∧
    (New.MinLength "name" "é" 2).Errors = [] := by
  refine ⟨fun v field value n => rfl, fun v field value n => rfl, by decide, by decide,
    by decide, by decide⟩

/-- C16: the method `Range` appends one entry exactly when the value is below
`min` or above `max`, and returns the validator as it was otherwise; when
`min` is not above `max` both ends pass. -/
theorem Range_records_iff_outside (v : Validator) (field : String) (value min max : Int) :
    v.Range field value min max =
      (if value < min ∨ value > max
       then ⟨v.errors ++
         [⟨field, "must be between " ++ toString min ++ " and " ++ toString max⟩]⟩
       else v) ∧
    (v.Range field value min max = v ↔ min ≤ value ∧ value ≤ max) ∧
    (min ≤ max → v.Range field min min max = v ∧ v.Range field max min max = v) := by
  have hne : ∀ (e : ValidationError), (⟨v.errors ++ [e]⟩ : Validator) ≠ v := by
    intro e h
    have := congrArg (fun x => x.errors.length) h
    simp at this
  refine ⟨rfl, ?_, ?_⟩
  · unfold Validator.Range Validator.AddError
    by_cases h : value < min ∨ value > max
    · rw [if_pos h]
      constructor
      · intro h1
        exact absurd h1 (hne _)
      · intro h1
        omega
    · rw [if_neg h]
      constructor
      · intro _
        omega
      · intro _
        rfl
  · intro hle
    unfold Validator.Range
    constructor
    · rw [if_neg (by omega)]
    · rw [if_neg (by omega)]

/-- C16 at the interval of the test, 18 to 65. -/
theorem Range_records_iff_outside_witness :
    New.Range "age" 18 18 65 = New ∧ New.Range "age" 65 18 65 = New :=
  (Range_records_iff_outside New "age" 30 18 65).2.2 (by decide)

/-- C17: the method `OneOf` returns the validator as it was exactly when the value
is an element of the list; otherwise, the empty list included, it appends the
one entry whose message is `must be one of: ` followed by the allowed
values joined with `", "`. -/
theorem OneOf_records_iff_not_member (v : Validator) (field value : String)
    (allowed : List String) :
    v.OneOf field value allowed =
      (if value ∈ allowed then v
       else ⟨v.errors ++ [⟨field, "must be one of: " ++ Join allowed ", "⟩]⟩) ∧
    (v.OneOf field value allowed = v ↔ value ∈ allowed) := by
  have hne : ∀ (e : ValidationError), (⟨v.errors ++ [e]⟩ : Validator) ≠ v := by
    intro e h
    have := congrArg (fun x => x.errors.length) h
    simp at this
  unfold Validator.OneOf Validator.AddError
  by_cases h : value ∈ allowed
  · have h1 := (oneOfLoop_iff value allowed).2 h
    simp [h, h1]
  · have h1 : oneOfLoop value allowed = false := by
      cases hl : oneOfLoop value allowed with
      | false => rfl
      | true => exact absurd ((oneOfLoop_iff value allowed).1 hl) h
    simp only [h1, h, if_false, Bool.false_eq_true, true_and]
    constructor
    · intro h2
      exact absurd h2 (hne _)
    · intro h2
      exact absurd h2 (by simp)

end validator

/-! ## The pattern of `Email` -/

namespace Go

/-- An expression is nullable exactly when it matches the empty text. -/
theorem Regex.nullable_iff (r : Regex) : r.nullable = true ↔ Regex.Matches r [] := by
  constructor
  · intro h
    induction r with
    | empty => simp [Regex.nullable] at h
    | eps => exact Regex.Matches.eps
    | cls p => simp [Regex.nullable] at h
    | cat a b iha ihb =>
      simp only [Regex.nullable, Bool.and_eq_true] at h
      exact Regex.Matches.cat a b [] [] (iha h.1) (ihb h.2)
    | alt a b iha ihb =>
      simp only [Regex.nullable, Bool.or_eq_true] at h
      rcases h with h | h
      · exact Regex.Matches.altLeft a b [] (iha h)
      · exact Regex.Matches.altRight a b [] (ihb h)
    | star a _ => exact Regex.Matches.starNil a
  · intro h
    generalize ht : ([] : List Char) = t at h
    induction h with
    | eps => rfl
    | cls p c hp => cases ht
    | cat a b x y _ _ iha ihb =>
      have hx : x = [] := by
        cases x with
        | nil => rfl
        | cons _ _ => cases ht
      have hy : y = [] := by
        subst hx
        simpa using ht.symm
      simp [Regex.nullable, iha hx.symm, ihb hy.symm]
    | altLeft a b x _ iha => simp [Regex.nullable, iha ht]
    | altRight a b x _ ihb => simp [Regex.nullable, ihb ht]
    | starNil a => rfl
    | starCons a x y _ _ _ _ => rfl

/-- What the derivative matches, one way: a match of the derivative gives a match
of the expression on the text with the character in front. -/
theorem Regex.matches_of_deriv (r : Regex) (c : Char) (s : List Char)
    (h : Regex.Matches (r.deriv c) s) : Regex.Matches r (c :: s) := by
  induction r generalizing s with
  | empty => cases h
  | eps => cases h
  | cls p =>
    simp only [Regex.deriv] at h
    split at h
    · rename_i hp
      cases h
      exact Regex.Matches.cls p c hp
    · cases h
  | cat a b iha ihb =>
    simp only [Regex.deriv] at h
    split at h
    · rename_i hn
      cases h with
      | altLeft _ _ _ h1 =>
        cases h1 with
        | cat _ _ x y hx hy => exact Regex.Matches.cat a b (c :: x) y (iha x hx) hy
      | altRight _ _ _ h1 =>
        exact Regex.Matches.cat a b [] (c :: s) ((Regex.nullable_iff a).1 hn) (ihb s h1)
    · cases h with
      | cat _ _ x y hx hy => exact Regex.Matches.cat a b (c :: x) y (iha x hx) hy
  | alt a b iha ihb =>
    simp only [Regex.deriv] at h
    cases h with
    | altLeft _ _ _ h1 => exact Regex.Matches.altLeft a b _ (iha s h1)
    | altRight _ _ _ h1 => exact Regex.Matches.altRight a b _ (ihb s h1)
  | star a iha =>
    simp only [Regex.deriv] at h
    cases h with
    | cat _ _ x y hx hy => exact Regex.Matches.starCons a (c :: x) y (iha x hx) hy

/-- What the derivative matches, the other way. -/
theorem Regex.deriv_of_matches (r : Regex) (c : Char) (s : List Char)
    (h : Regex.Matches r (c :: s)) : Regex.Matches (r.deriv c) s := by
  generalize ht : c :: s = t at h
  induction h generalizing s with
  | eps => cases ht
  | cls p d hp =>
    cases ht
    simp only [Regex.deriv, hp, if_true]
    exact Regex.Matches.eps
  | cat a b x y ha hb iha ihb =>
    cases x with
    | nil =>
      have hn := (Regex.nullable_iff a).2 ha
      simp only [Regex.deriv, hn, if_true]
      exact Regex.Matches.altRight _ _ _ (ihb s (by simpa using ht))
    | cons d x1 =>
      simp only [List.cons_append, List.cons.injEq] at ht
      obtain ⟨hd, hs⟩ := ht
      subst hd
      subst hs
      have h1 := Regex.Matches.cat (a.deriv c) b x1 y (iha x1 rfl) hb
      simp only [Regex.deriv]
      split
      · exact Regex.Matches.altLeft _ _ _ h1
      · exact h1
  | altLeft a b x _ iha => exact Regex.Matches.altLeft _ _ _ (iha s ht)
  | altRight a b x _ ihb => exact Regex.Matches.altRight _ _ _ (ihb s ht)
  | starNil a => cases ht
  | starCons a x y ha hs iha ihs =>
    cases x with
    | nil => exact ihs s (by simpa using ht)
    | cons d x1 =>
      simp only [List.cons_append, List.cons.injEq] at ht
      obtain ⟨hd, hs1⟩ := ht
      subst hd
      subst hs1
      exact Regex.Matches.cat (a.deriv c) (Regex.star a) x1 y (iha x1 rfl) hs

/-- The matcher decides the language of the expression. -/
theorem Regex.matchList_iff (r : Regex) (s : List Char) :
    r.matchList s = true ↔ Regex.Matches r s := by
  induction s generalizing r with
  | nil => exact Regex.nullable_iff r
  | cons c cs ih =>
    simp only [Regex.matchList]
    rw [ih]
    exact ⟨Regex.matches_of_deriv r c cs, Regex.deriv_of_matches r c cs⟩

/-- A concatenation matches the texts that split into a match of each part. -/
theorem Regex.matches_cat_iff (a b : Regex) (s : List Char) :
    Regex.Matches (Regex.cat a b) s ↔
      ∃ x y, s = x ++ y ∧ Regex.Matches a x ∧ Regex.Matches b y := by
  constructor
  · intro h
    cases h with
    | cat _ _ x y ha hb => exact ⟨x, y, rfl, ha, hb⟩
  · rintro ⟨x, y, rfl, ha, hb⟩
    exact Regex.Matches.cat a b x y ha hb

/-- A class matches the one-character texts over it. -/
theorem Regex.matches_cls_iff (p : Char → Bool) (s : List Char) :
    Regex.Matches (Regex.cls p) s ↔ ∃ c, s = [c] ∧ p c = true := by
  constructor
  · intro h
    cases h with
    | cls _ c hp => exact ⟨c, rfl, hp⟩
  · rintro ⟨c, rfl, hp⟩
    exact Regex.Matches.cls p c hp

/-- A literal character matches itself only. -/
theorem Regex.matches_char_iff (c : Char) (s : List Char) :
    Regex.Matches (Regex.char c) s ↔ s = [c] := by
  unfold Regex.char
  rw [Regex.matches_cls_iff]
  constructor
  · rintro ⟨d, rfl, hd⟩
    simp at hd
    rw [hd]
  · intro h
    exact ⟨c, h, by simp⟩

/-- The repetition of a class matches the texts over the class. -/
theorem Regex.matches_star_cls_iff (p : Char → Bool) (s : List Char) :
    Regex.Matches (Regex.star (Regex.cls p)) s ↔ ∀ c ∈ s, p c = true := by
  constructor
  · intro h
    generalize hr : Regex.star (Regex.cls p) = r at h
    induction h with
    | eps => cases hr
    | cls _ _ _ => cases hr
    | cat _ _ _ _ _ _ _ _ => cases hr
    | altLeft _ _ _ _ _ => cases hr
    | altRight _ _ _ _ _ => cases hr
    | starNil a => simp
    | starCons a x y ha _ _ ihs =>
      cases hr
      obtain ⟨c, rfl, hc⟩ := (Regex.matches_cls_iff p x).1 ha
      intro d hd
      simp only [List.singleton_append, List.mem_cons] at hd
      rcases hd with rfl | hd
      · exact hc
      · exact ihs rfl d hd
  · intro h
    induction s with
    | nil => exact Regex.Matches.starNil _
    | cons c cs ih =>
      have h1 : Regex.Matches (Regex.star (Regex.cls p)) ([c] ++ cs) :=
        Regex.Matches.starCons _ [c] cs (Regex.Matches.cls p c (h c (by simp)))
          (ih (fun d hd => h d (List.mem_cons_of_mem _ hd)))
      simpa using h1

/-- One or more of a class: the non-empty texts over the class. -/
theorem Regex.matches_plus_cls_iff (p : Char → Bool) (s : List Char) :
    Regex.Matches (Regex.plus (Regex.cls p)) s ↔ s ≠ [] ∧ ∀ c ∈ s, p c = true := by
  unfold Regex.plus
  rw [Regex.matches_cat_iff]
  constructor
  · rintro ⟨x, y, rfl, hx, hy⟩
    obtain ⟨c, rfl, hc⟩ := (Regex.matches_cls_iff p x).1 hx
    refine ⟨by simp, ?_⟩
    intro d hd
    simp only [List.singleton_append, List.mem_cons] at hd
    rcases hd with rfl | hd
    · exact hc
    · exact (Regex.matches_star_cls_iff p y).1 hy d hd
  · rintro ⟨hne, h⟩
    cases s with
    | nil => exact absurd rfl hne
    | cons c cs =>
      exact ⟨[c], cs, rfl, Regex.Matches.cls p c (h c (by simp)),
        (Regex.matches_star_cls_iff p cs).2 (fun d hd => h d (List.mem_cons_of_mem _ hd))⟩

/-- Two or more of a class: the texts of length at least two over the class. -/
theorem Regex.matches_atLeastTwo_cls_iff (p : Char → Bool) (s : List Char) :
    Regex.Matches (Regex.atLeastTwo (Regex.cls p)) s ↔ 2 ≤ s.length ∧ ∀ c ∈ s, p c = true := by
  unfold Regex.atLeastTwo
  rw [Regex.matches_cat_iff]
  constructor
  · rintro ⟨x, y, rfl, hx, hy⟩
    obtain ⟨c, rfl, hc⟩ := (Regex.matches_cls_iff p x).1 hx
    obtain ⟨hne, hall⟩ := (Regex.matches_plus_cls_iff p y).1 hy
    refine ⟨?_, ?_⟩
    · cases y with
      | nil => exact absurd rfl hne
      | cons _ _ => simp
    · intro d hd
      simp only [List.singleton_append, List.mem_cons] at hd
      rcases hd with rfl | hd
      · exact hc
      · exact hall d hd
  · rintro ⟨hlen, h⟩
    cases s with
    | nil => simp at hlen
    | cons c cs =>
      refine ⟨[c], cs, rfl, Regex.Matches.cls p c (h c (by simp)),
        (Regex.matches_plus_cls_iff p cs).2 ⟨?_, fun d hd => h d (List.mem_cons_of_mem _ hd)⟩⟩
      intro hcs
      subst hcs
      simp at hlen

/-- A text splits in one way only at a separator that occurs on neither side. -/
theorem split_unique (a : Char) (l1 r1 l2 r2 : List Char) (h : l1 ++ a :: r1 = l2 ++ a :: r2)
    (hl : a ∉ l1) (hr : a ∉ r1) : l1 = l2 ∧ r1 = r2 := by
  induction l1 generalizing l2 with
  | nil =>
    cases l2 with
    | nil => simpa using h
    | cons b l2 =>
      simp only [List.nil_append, List.cons_append, List.cons.injEq] at h
      exact absurd (by rw [h.2]; simp) hr
  | cons c l1 ih =>
    cases l2 with
    | nil =>
      simp only [List.nil_append, List.cons_append, List.cons.injEq] at h
      exact absurd (by simp [h.1]) hl
    | cons b l2 =>
      simp only [List.cons_append, List.cons.injEq] at h
      obtain ⟨h1, h2⟩ := ih l2 h.2 (fun hm => hl (List.mem_cons_of_mem _ hm))
      exact ⟨by rw [h.1, h1], h2⟩

end Go

namespace validator

open Go

/-- The pattern of `Email` matches exactly the texts of the shape
`local@domain.tld`. -/
theorem emailRegex_matches_iff (value : String) :
    emailRegex.MatchString value = true ↔ EmailShape value := by
  unfold Regex.MatchString EmailShape emailRegex
  rw [Regex.matchList_iff]
  simp only [Regex.matches_cat_iff, Regex.matches_char_iff, Regex.matches_plus_cls_iff,
    Regex.matches_atLeastTwo_cls_iff]
  constructor
  · rintro ⟨x, y, hxy, ⟨hx1, hx2⟩, x2, y2, hy, hx2e, x3, y3, hy2, ⟨hx31, hx32⟩, x4, y4, hy3,
      hx4, hlen, hall⟩
    refine ⟨x, x3, y4, ?_, hx1, hx2, hx31, hx32, hlen, hall⟩
    rw [hxy, hy, hx2e, hy2, hy3, hx4]
    simp
  · rintro ⟨lcl, domain, tld, hv, h1, h2, h3, h4, h5, h6⟩
    exact ⟨lcl, '@' :: (domain ++ '.' :: tld), hv, ⟨h1, h2⟩, ['@'], domain ++ '.' :: tld, rfl,
      rfl, domain, '.' :: tld, rfl, ⟨h3, h4⟩, ['.'], tld, rfl, rfl, h5, h6⟩

/-- A text of the shape has its only `@` between the local part and the rest. -/
theorem EmailShape.split_at {value : String} (h : EmailShape value) (pre post : List Char)
    (hv : value.toList = pre ++ '@' :: post) :
    ∃ domain tld : List Char, post = domain ++ '.' :: tld ∧ 2 ≤ tld.length ∧
      (∀ c ∈ tld, c.isAlpha = true) := by
  obtain ⟨lcl, domain, tld, hs, -, h2, -, h4, h5, h6⟩ := h
  have hl : '@' ∉ lcl := fun hm => by
    have := h2 _ hm
    simp [emailLocalChar, Char.isAlphanum, Char.isAlpha, Char.isUpper, Char.isLower,
      Char.isDigit] at this
  have hr : '@' ∉ domain ++ '.' :: tld := by
    intro hm
    rcases List.mem_append.1 hm with hm | hm
    · have := h4 _ hm
      simp [emailDomainChar, Char.isAlphanum, Char.isAlpha, Char.isUpper, Char.isLower,
        Char.isDigit] at this
    · rcases List.mem_cons.1 hm with hm | hm
      · cases hm
      · have := h6 _ hm
        simp [Char.isAlpha, Char.isUpper, Char.isLower] at this
  obtain ⟨-, hpost⟩ := split_unique '@' lcl _ pre post (hs.symm.trans hv) hl hr
  exact ⟨domain, tld, hpost.symm, h5, h6⟩

/-- C18: on a new validator `Email` leaves no error exactly when the value has the
shape `local@domain.tld` (local part one or more of `[A-Za-z0-9._%+-]`, domain
one or more of `[A-Za-z0-9.-]`, top-level part two or more ASCII letters),
and records `must be a valid email address` otherwise; so it does for a value
without `@`, with a space, with nothing after an `@`, or with no dot after
an `@`. -/
theorem Email_valid_iff_shape (field value : String) :
    ((New.Email field value).IsValid = true ↔ EmailShape value) ∧
    (¬ EmailShape value →
      (New.Email field value).Errors = [⟨field, "must be a valid email address"⟩]) ∧
    ('@' ∉ value.toList → ¬ EmailShape value) ∧
    (' ' ∈ value.toList → ¬ EmailShape value) ∧
    (∀ pre : List Char, value.toList = pre ++ ['@'] → ¬ EmailShape value) ∧
    (∀ pre post : List Char, value.toList = pre ++ '@' :: post → '.' ∉ post →
      ¬ EmailShape value) := by
  have hm := emailRegex_matches_iff value
  refine ⟨?_, ?_, ?_, ?_, ?_, ?_⟩
  · unfold Validator.Email Validator.IsValid Validator.AddError New
    by_cases h : emailRegex.MatchString value = true
    · simp [h, ← hm]
    · simp [h, ← hm]
  · intro hs
    have h : emailRegex.MatchString value = false := by
      cases hb : emailRegex.MatchString value with
      | false => rfl
      | true => exact absurd (hm.1 hb) hs
    simp [Validator.Email, Validator.Errors, Validator.AddError, New, h]
  · rintro hno ⟨lcl, domain, tld, hv, -⟩
    exact hno (by rw [hv]; simp)
  · rintro hsp ⟨lcl, domain, tld, hv, -, h2, -, h4, -, h6⟩
    rw [hv] at hsp
    simp only [List.mem_append, List.mem_cons] at hsp
    rcases hsp with h | h | h | h | h
    · have := h2 _ h
      simp [emailLocalChar, Char.isAlphanum, Char.isAlpha, Char.isUpper, Char.isLower,
        Char.isDigit] at this
    · cases h
    · have := h4 _ h
      simp [emailDomainChar, Char.isAlphanum, Char.isAlpha, Char.isUpper, Char.isLower,
        Char.isDigit] at this
    · cases h
    · have := h6 _ h
      simp [Char.isAlpha, Char.isUpper, Char.isLower] at this
  · intro pre hv hs
    obtain ⟨domain, tld, hpost, -⟩ := hs.split_at pre [] hv
    simp at hpost
  · intro pre post hv hdot hs
    obtain ⟨domain, tld, hpost, -⟩ := hs.split_at pre post hv
    exact hdot (by rw [hpost]; simp)

/-- C18 at the rejected values of the test: no `@`, nothing after the `@`, no
top-level part, a space. -/
theorem Email_valid_iff_shape_witness :
    ¬ EmailShape "userexample.com" ∧ ¬ EmailShape "user@" ∧ ¬ EmailShape "user@example" ∧
    ¬ EmailShape "user @example.com" ∧
    (New.Email "email" "user@example").Errors =
      [⟨"email", "must be a valid email address"⟩] :=
  ⟨(Email_valid_iff_shape "email" "userexample.com").2.2.1 (by decide),
    (Email_valid_iff_shape "email" "user@").2.2.2.2.1 "user".toList rfl,
    (Email_valid_iff_shape "email" "user@example").2.2.2.2.2 "user".toList "example".toList rfl
      (by decide),
    (Email_valid_iff_shape "email" "user @example.com").2.2.2.1 (by decide),
    (Email_valid_iff_shape "email" "user@example").2.1
      ((Email_valid_iff_shape "email" "user@example").2.2.2.2.2 "user".toList
        "example".toList rfl (by decide))⟩

end validator

/-! ## `WriteError` on every status, and the header `CORS` leaves -/

namespace Go

/-- The key just set is in the map. -/
theorem Header.Has_Set_self (h : Header) (key value : String) :
    (h.Set key value).Has key = true := by
  simp [Header.Has, Header.Set]

/-- Setting a key does not change whether a key of another canonical form is in
the map. -/
theorem Header.Has_Set_other (h : Header) (key key1 value : String)
    (hk : canonicalMIMEHeaderKey key1 ≠ canonicalMIMEHeaderKey key) :
    (h.Set key value).Has key1 = h.Has key1 := by
  have h1 : (canonicalMIMEHeaderKey key1 == canonicalMIMEHeaderKey key) = false := by
    simpa using hk
  simp [Header.Has, Header.Set, List.lookup_cons, h1, lookup_filter_ne _ _ _ hk]

end Go

namespace httputil

open Go

/-- The loop of `CORS` on a list that holds the origin or the wildcard stops at
the first such entry and echoes the origin. -/
theorem corsLoop_matched (origin : String) (w : ResponseWriter) (l : List String)
    (h : origin ∈ l ∨ "*" ∈ l) :
    corsLoop origin w l = (true, w.setHeader "Access-Control-Allow-Origin" origin) := by
  induction l with
  | nil => simp at h
  | cons o rest ih =>
    unfold corsLoop
    split
    · rfl
    · rename_i hno
      refine ih ?_
      rcases h with h | h
      · rcases List.mem_cons.1 h with h1 | h1
        · exact absurd (Or.inl h1.symm) hno
        · exact Or.inl h1
      · rcases List.mem_cons.1 h with h1 | h1
        · exact absurd (Or.inr h1.symm) hno
        · exact Or.inr h1

/-- The header map of the writer `CORS` hands on, written out. -/
theorem CORS_header (allowedOrigins : List String) (w : ResponseWriter) (r : Request) :
    ∃ w1 : ResponseWriter,
      w1.header =
        ((((if !(corsLoop (r.Header.Get "Origin") w allowedOrigins).1 &&
              decide (allowedOrigins.length > 0)
            then (corsLoop (r.Header.Get "Origin") w allowedOrigins).2.setHeader
              "Access-Control-Allow-Origin" (allowedOrigins.getD 0 "")
            else (corsLoop (r.Header.Get "Origin") w allowedOrigins).2).header.Set
          "Access-Control-Allow-Methods" "GET, POST, PUT, DELETE, OPTIONS").Set
          "Access-Control-Allow-Headers" "Content-Type, Authorization").Set "Vary" "Origin") ∧
      ∀ next : Handler, CORS allowedOrigins next w r =
        if r.Method = "OPTIONS" then ⟨{ w1 with code := some (w.code.getD 200) }, none⟩
        else next w1 r := by
  have hloop : ∀ (l : List String) (origin : String), (corsLoop origin w l).2.code = w.code := by
    intro l origin
    induction l with
    | nil => simp [corsLoop]
    | cons o rest ih =>
      unfold corsLoop
      split
      · simp [ResponseWriter.setHeader]
      · exact ih
  obtain ⟨w1, hw1⟩ : ∃ w1 : ResponseWriter, w1 =
      (((if !(corsLoop (r.Header.Get "Origin") w allowedOrigins).1 &&
        decide (allowedOrigins.length > 0)
      then (corsLoop (r.Header.Get "Origin") w allowedOrigins).2.setHeader
        "Access-Control-Allow-Origin" (allowedOrigins.getD 0 "")
      else (corsLoop (r.Header.Get "Origin") w allowedOrigins).2).setHeader
        "Access-Control-Allow-Methods" "GET, POST, PUT, DELETE, OPTIONS").setHeader
        "Access-Control-Allow-Headers" "Content-Type, Authorization").setHeader "Vary" "Origin" :=
    ⟨_, rfl⟩
  have hcode : w1.code = w.code := by
    have := hloop allowedOrigins (r.Header.Get "Origin")
    rw [hw1]
    split <;> simp [ResponseWriter.setHeader, this]
  refine ⟨w1, ?_, fun next => ?_⟩
  · rw [hw1]
    simp only [ResponseWriter.setHeader]
  · unfold CORS
    simp only [WriteHeader_valid _ 200 (by decide) (by decide)]
    rw [← hw1, hcode]

/-- C19: on a writer that does not carry `Access-Control-Allow-Origin` yet, the
writer `CORS` hands to the wrapped handler (and, for `OPTIONS`, returns) has
the header exactly when the allow-list is not empty, and then its value is
the `Origin` of the request, as it is, when the list holds that origin or
the entry `*`, and the first entry of the list otherwise. -/
theorem CORS_allow_origin_value (allowedOrigins : List String) (w : ResponseWriter)
    (r : Request) (hw : w.header.Has "Access-Control-Allow-Origin" = false) :
    ∃ w1 : ResponseWriter,
      (∀ next : Handler, CORS allowedOrigins next w r =
        if r.Method = "OPTIONS" then ⟨{ w1 with code := some (w.code.getD 200) }, none⟩
        else next w1 r) ∧
      (w1.header.Has "Access-Control-Allow-Origin" = true ↔ allowedOrigins ≠ []) ∧
      (allowedOrigins ≠ [] →
        w1.header.Get "Access-Control-Allow-Origin" =
          if r.Header.Get "Origin" ∈ allowedOrigins ∨ "*" ∈ allowedOrigins
          then r.Header.Get "Origin" else allowedOrigins.getD 0 "") := by
  obtain ⟨w1, hh, hrun⟩ := CORS_header allowedOrigins w r
  refine ⟨w1, hrun, ?_, ?_⟩
  · rw [hh, Header.Has_Set_other _ _ _ _ (by decide), Header.Has_Set_other _ _ _ _ (by decide),
      Header.Has_Set_other _ _ _ _ (by decide)]
    by_cases hm : r.Header.Get "Origin" ∈ allowedOrigins ∨ "*" ∈ allowedOrigins
    · rw [corsLoop_matched _ _ _ hm]
      have hne : allowedOrigins ≠ [] := by
        rintro rfl
        simp at hm
      simp [ResponseWriter.setHeader, Header.Has_Set_self, hne]
    · rw [corsLoop_unlisted _ _ _ (fun h => hm (Or.inl h)) (fun h => hm (Or.inr h))]
      cases allowedOrigins with
      | nil => simp [hw]
      | cons first rest => simp [ResponseWriter.setHeader, Header.Has_Set_self]
  · intro hne
    rw [hh, Header.Get_Set_other _ _ _ _ (by decide), Header.Get_Set_other _ _ _ _ (by decide),
      Header.Get_Set_other _ _ _ _ (by decide)]
    by_cases hm : r.Header.Get "Origin" ∈ allowedOrigins ∨ "*" ∈ allowedOrigins
    · rw [corsLoop_matched _ _ _ hm, if_pos hm]
      simp [ResponseWriter.setHeader, Header.Get_Set_self]
    · rw [corsLoop_unlisted _ _ _ (fun h => hm (Or.inl h)) (fun h => hm (Or.inr h)),
        if_neg hm]
      cases allowedOrigins with
      | nil => exact absurd rfl hne
      | cons first rest => simp [ResponseWriter.setHeader, Header.Get_Set_self]

/-- C19 at `Origin: https://b.test` against the allow-list `["*"]` on a fresh writer:
the header is set, to the origin of the request. -/
theorem CORS_allow_origin_value_witness :
    ∃ w1 : ResponseWriter,
      (∀ next : Handler, CORS ["*"] next ResponseWriter.fresh requestFromB =
        if requestFromB.Method = "OPTIONS"
        then ⟨{ w1 with code := some (ResponseWriter.fresh.code.getD 200) }, none⟩
        else next w1 requestFromB) ∧
      w1.header.Has "Access-Control-Allow-Origin" = true ∧
      w1.header.Get "Access-Control-Allow-Origin" = "https://b.test" := by
  obtain ⟨w1, hrun, hhas, hget⟩ :=
    CORS_allow_origin_value ["*"] ResponseWriter.fresh requestFromB (by decide)
  exact ⟨w1, hrun, hhas.2 (by decide), (hget (by decide)).trans (by decide)⟩

end httputil

/-! ## `ReadJSON` and the byte limit -/

namespace httputil

open Go

/-- C12 as stated fails, whatever the release of `encoding/json`: with a limit of 16
bytes, the body made of the 12 bytes of an object and 20 spaces is 32 bytes
long and `ReadJSON` returns nil, the decoder having stopped at the end of the
object; and a body of 6 bytes against a limit of 2 with a wrong first byte
is reported as malformed, not as too large. -/
theorem ReadJSON_long_body_accepted :
    (⟨bytes "\x7b\"name\":\"x\"\x7d                    ", ReadErr.EOF⟩ : Body).data.length = 32 ∧
    (∀ rel : Release,
      ReadJSON rel ⟨bytes "\x7b\"name\":\"x\"\x7d                    ", ReadErr.EOF⟩ Dst.any 16 =
        none) ∧
    (∀ rel : Release,
      ReadJSON rel ⟨bytes "x23456", ReadErr.EOF⟩ Dst.any 2 =
        some ("malformed JSON at position " ++ toString (rel.syntaxOffset (bytes "x2") 1))) ∧
    ReadJSON Release.scanner ⟨bytes "x23456", ReadErr.EOF⟩ Dst.any 2 =
      some "malformed JSON at position 1" := by
  refine ⟨by decide, fun rel => rfl, fun rel => rfl, by decide⟩

/-- C12, amended: of a body longer than the limit (`maxBytes`, or 1048576 when
`maxBytes` is 0; a negative limit counts as no byte at all) `ReadJSON` sees
the first bytes up to the limit only, followed by the error of the limiting
reader. When these bytes hold a syntax error the result is the
malformed-JSON error with the offset the decoder reports; when the first
value is complete within them, the value is stored and the result is that of
storing it, the length of the body not being reported; when they end before
or inside the first value the error is `request body must not exceed <limit>
bytes`. When they end exactly with a top-level literal, number or string, so
that the value lacks nothing but a byte after it, the release of
`encoding/json` decides between the last two: the decoder built on the scanner
reports the limit, a decoder that completes such a value stores it. -/
theorem ReadJSON_over_limit (rel : Release) (body : Body) (dst : Dst) (maxBytes : Int)
    (hlen : (if maxBytes = 0 then (1048576 : Int) else maxBytes).toNat < body.data.length) :
    MaxBytesReader body (if maxBytes = 0 then (1048576 : Int) else maxBytes) =
      ⟨body.data.take (if maxBytes = 0 then (1048576 : Int) else maxBytes).toNat,
        ReadErr.MaxBytesError⟩ ∧
    ReadJSON rel body dst maxBytes =
      (match scanBuf Scanner.reset 0
          (body.data.take (if maxBytes = 0 then (1048576 : Int) else maxBytes).toNat) with
      | .exhausted s =>
        if (s.stepByte ' ').1 = ScanOp.scanEnd ∧
            rel.completesAtReadError
              (body.data.take (if maxBytes = 0 then (1048576 : Int) else maxBytes).toNat) =
              true then
          match dst.unmarshal
              (body.data.take (if maxBytes = 0 then (1048576 : Int) else maxBytes).toNat) with
          | none => none
          | some (.UnmarshalTypeError field) => some ("invalid value for field " ++ fmtQ field)
          | some (.other msg) =>
            some (readJSONDefault (if maxBytes = 0 then (1048576 : Int) else maxBytes) msg)
        else
          some ("request body must not exceed " ++
            toString (if maxBytes = 0 then (1048576 : Int) else maxBytes) ++ " bytes")
      | .syntaxError offset =>
        some ("malformed JSON at position " ++
          toString (rel.syntaxOffset
            (body.data.take (if maxBytes = 0 then (1048576 : Int) else maxBytes).toNat) offset))
      | .value n =>
        match dst.unmarshal
            ((body.data.take (if maxBytes = 0 then (1048576 : Int) else maxBytes).toNat).take
              n) with
        | none => none
        | some (.UnmarshalTypeError field) => some ("invalid value for field " ++ fmtQ field)
        | some (.other msg) =>
          some (readJSONDefault (if maxBytes = 0 then (1048576 : Int) else maxBytes) msg)) := by
  generalize hlim : (if maxBytes = 0 then (1048576 : Int) else maxBytes) = limit at hlen ⊢
  have hreader : MaxBytesReader body limit =
      ⟨body.data.take limit.toNat, ReadErr.MaxBytesError⟩ := by
    unfold MaxBytesReader
    by_cases hneg : limit < 0
    · have h0 : limit.toNat = 0 := by omega
      have hpos : ¬ body.data.length ≤ (0 : Int).toNat := by
        simp only [Int.toNat_zero]
        omega
      simp only [hneg, if_true]
      rw [if_neg hpos, h0]
      rfl
    · simp only [hneg, if_false]
      rw [if_neg (by omega)]
  refine ⟨hreader, ?_⟩
  unfold ReadJSON
  simp only [hlim, hreader, Decode]
  cases hscan : scanBuf Scanner.reset 0 (body.data.take limit.toNat) with
  | value n =>
    simp only
    cases hu : dst.unmarshal ((body.data.take limit.toNat).take n) with
    | none => rfl
    | some e => cases e <;> rfl
  | syntaxError offset => rfl
  | exhausted s =>
    simp only [reduceCtorEq, if_false]
    by_cases hend : (s.stepByte ' ').1 = ScanOp.scanEnd
    · by_cases hrel : rel.completesAtReadError (body.data.take limit.toNat) = true
      · simp only [hend, hrel, decide_True, Bool.and_self, if_true, and_self]
        cases hu : dst.unmarshal (body.data.take limit.toNat) with
        | none => rfl
        | some e => cases e <;> rfl
      · simp only [hend, hrel, decide_True, Bool.true_and, if_false, and_false]
        rfl
    · simp only [hend, decide_False, Bool.false_and, Bool.false_eq_true, if_false, false_and]
      rfl

/-- C12 amended, at a body of 11 bytes against a limit of 4, which cuts it inside
the array, and at the 9 bytes `true` and five spaces against a limit of 4,
where the release decides. -/
theorem ReadJSON_over_limit_witness :
    ReadJSON Release.scanner ⟨bytes "[1,2,3,4,5]", ReadErr.EOF⟩ Dst.any 4 =
      some "request body must not exceed 4 bytes" ∧
    ReadJSON Release.scanner ⟨bytes "true     ", ReadErr.EOF⟩ Dst.any 4 =
      some "request body must not exceed 4 bytes" ∧
    ReadJSON ⟨fun _ => true, fun _ n => n⟩ ⟨bytes "true     ", ReadErr.EOF⟩ Dst.any 4 = none :=
  ⟨(ReadJSON_over_limit Release.scanner ⟨bytes "[1,2,3,4,5]", ReadErr.EOF⟩ Dst.any 4
      (by decide)).2.trans (by decide),
    (ReadJSON_over_limit Release.scanner ⟨bytes "true     ", ReadErr.EOF⟩ Dst.any 4
      (by decide)).2.trans (by decide),
    (ReadJSON_over_limit ⟨fun _ => true, fun _ n => n⟩ ⟨bytes "true     ", ReadErr.EOF⟩ Dst.any 4
      (by decide)).2.trans (by decide)⟩

end httputil
